import Mathlib

/-!
Verification of the hdlproto simulation kernel against its specification.

The development shallow-embeds the two signal/scheduler variants present in
the source tree:

* the "classic" variant (`hdlproto/signal.py`, `hdlproto/module.py`,
  `hdlproto/simulation_context.py`, `hdlproto/region.py`), embedded in the
  `Old` namespace;
* the live, event-based variant (`hdlproto/signal/signal.py`,
  `hdlproto/signal/signal_manager.py`, `hdlproto/function_manager.py`,
  `hdlproto/simulator.py`), embedded in the `ESig`, `Mgr` and `Pipe`
  namespaces.

Python arbitrary-precision integers are modelled as `Int`.  Python's
bitwise operations on them are translated through their arithmetic
characterisation: for any integer `x` (two's complement semantics),
`x & (2^n - 1) = x % 2^n` (Euclidean remainder, which is what Python's `%`
computes for a positive modulus), `x >> k = x / 2^k` rounding towards
negative infinity (`Int.ediv` for a positive divisor), and a bitwise OR of
two values with disjoint one-bits is their sum.
-/

/-- Clock edge selector, from `hdlproto/state.py` (`Edge.POS`, `Edge.NEG`). -/
inductive Edge where
  | pos
  | neg
deriving DecidableEq

/-- Event sources, from `hdlproto/event/event.py` (`_EventSource`). -/
inductive EventSource where
  | wireS
  | regS
  | inputS
  | outputS
  | externalS
  | functionS
  | alwaysCombS
  | alwaysFFS
  | alwaysFFPosS
  | alwaysFFNegS
deriving DecidableEq

/-- Failure kinds raised by the kernel.  `illegalCombWriteToReg` and
`illegalSeqWriteToWire` are the two distinguishable `SignalInvalidAccess`
messages, `signalWriteConflictOld` / `signalWriteConflict` the
`SignalWriteConflict` messages of the two variants (each carrying the
process identities named in the message), `didNotConverge` is
`SignalUnstableError`, `writeOutsideProcess` the `RuntimeError` raised by
`_SimulationContext._record_write`, `invalidRange` the
`AttributeError("Invalid bit range")`, `noneTypeError` the `TypeError`
Python raises when `|=` meets `None`, and `outOfFuel` is an artefact of
modelling the unbounded `while` loop of `Simulator._half_clock` with fuel. -/
inductive SimError where
  | illegalCombWriteToReg
  | illegalSeqWriteToWire
  | signalWriteConflictOld (drivers : List (Option Nat))
  | signalWriteConflict (prev now : Nat)
  | didNotConverge
  | writeOutsideProcess
  | invalidRange
  | noneTypeError
  | outOfFuel
deriving DecidableEq

/-- Abbreviation for `(2 : Int) ^ n`. -/
def pow2 (n : Nat) : Int := (2 : Int) ^ n

/-- Python `x & (2^n - 1)` on an arbitrary int (two's complement):
equals the non-negative remainder `x % 2^n`. -/
def maskLow (x : Int) (n : Nat) : Int := x % pow2 n

/-- Python `x >> k` (arithmetic shift, i.e. floor division by `2^k`);
`Int.ediv` agrees with floor division for a positive divisor. -/
def shiftR (x : Int) (k : Nat) : Int := Int.ediv x (pow2 k)

namespace Old

/-- State of `hdlproto/signal.py` `_Signal`: committed value, staged
pending value, and the three snapshot slots. -/
structure Sig where
  width : Nat
  value : Int
  pending : Option Int := none
  snapshotDelta : Int := 0
  snapshotCycle : Int := 0
  snapshotEpsilon : Int := 0
deriving DecidableEq

/-- `_Signal._write`: stage `value & ((1 << width) - 1)` as pending. -/
def write (s : Sig) (v : Int) : Sig :=
  { s with pending := some (maskLow v s.width) }

/-- `_Signal._commit`: promote the pending value, if any. -/
def commit (s : Sig) : Sig :=
  match s.pending with
  | none => s
  | some p => { s with value := p, pending := none }

/-- The `w` / `r` property getters: return the committed value. -/
def read (s : Sig) : Int := s.value

/-- `_Signal._snapshot_delta`. -/
def snapshotDeltaOp (s : Sig) : Sig := { s with snapshotDelta := s.value }

/-- `_Signal._snapshot_cycle`. -/
def snapshotCycleOp (s : Sig) : Sig := { s with snapshotCycle := s.value }

/-- `_Signal._snapshot_epsilon`. -/
def snapshotEpsilonOp (s : Sig) : Sig := { s with snapshotEpsilon := s.value }

/-- `_Signal._is_delta_changed`. -/
def isDeltaChanged (s : Sig) : Bool := s.value != s.snapshotDelta

/-- `_Signal._is_cycle_changed`. -/
def isCycleChanged (s : Sig) : Bool := s.value != s.snapshotCycle

/-- `_Signal._is_epsilon_changed`. -/
def isEpsilonChanged (s : Sig) : Bool := s.value != s.snapshotEpsilon

/-- `_Signal._equal_cycle_edge`: POS means the cycle snapshot was zero and
the current value is nonzero, NEG the reverse. -/
def equalCycleEdge (s : Sig) (e : Edge) : Bool :=
  match e with
  | .pos => s.value != 0 && s.snapshotCycle == 0
  | .neg => s.value == 0 && s.snapshotCycle != 0

/-- Key normalisation shared by `_read_bits` / `_write_bits`:
`if msb < lsb: msb, lsb = lsb, msb`. -/
def normKey (msb lsb : Int) : Int × Int :=
  if msb < lsb then (lsb, msb) else (msb, lsb)

/-- `_Signal._read_bits` on a `[msb:lsb]` slice:
`(value >> lsb) & ((1 << (msb - lsb + 1)) - 1)`, after normalisation and
bounds checking (`AttributeError` on an out-of-range index). -/
def readBits (s : Sig) (msb lsb : Int) : Except SimError Int :=
  let k := normKey msb lsb
  if (s.width : Int) ≤ k.1 ∨ k.2 < 0 then .error .invalidRange
  else .ok (maskLow (shiftR s.value k.2.toNat) (k.1 - k.2 + 1).toNat)

/-- `_Signal._write_bits`: select the merge base (`pending` when present,
else the committed value), then stage
`((value & (2^n - 1)) << lsb) | (base & ~((2^n - 1) << lsb))` through
`_write`.  The OR of the two terms is a sum because their one-bits are
disjoint, and `base & ((2^n - 1) << lsb) = ((base >> lsb) & (2^n - 1)) << lsb`,
so `base & ~mask = base - ((base >> lsb) & (2^n - 1)) << lsb`. -/
def writeBits (s : Sig) (msb lsb : Int) (v : Int) : Except SimError Sig :=
  let k := normKey msb lsb
  if (s.width : Int) ≤ k.1 ∨ k.2 < 0 then .error .invalidRange
  else
    let n : Nat := (k.1 - k.2 + 1).toNat
    let ln : Nat := k.2.toNat
    let base : Int :=
      match s.pending with
      | some p => p
      | none => s.value
    let inserted : Int := maskLow v n * pow2 ln
    let cleared : Int := base - maskLow (shiftR base ln) n * pow2 ln
    .ok (write s (inserted + cleared))

/-- Resolved trigger target object, from `hdlproto/module.py`
`BoundAlwaysFF.__init__`: attribute resolution can land on a terminal
signal (`Wire` / `Reg`) or on a `_Port` alias. -/
inductive TrigObj where
  | direct (s : Sig)
  | aliased (target : Sig)

/-- `_Port._is_delta_changed` forwards to the target; a terminal signal
answers for itself. -/
def objDeltaChanged : TrigObj → Bool
  | .direct s => isDeltaChanged s
  | .aliased t => isDeltaChanged t

/-- `_Port._equal_cycle_edge` forwards to the target. -/
def objEqualCycleEdge : TrigObj → Edge → Bool
  | .direct s, e => equalCycleEdge s e
  | .aliased t, e => equalCycleEdge t e

/-- One entry of `Trigger._triggers`. -/
structure TriggerPair where
  edge : Edge
  sig : TrigObj

/-- `Trigger._is_triggered`: return `True` on the first pair whose signal
satisfies `_is_delta_changed() and _equal_cycle_edge(edge)`. -/
def isTriggered (ts : List TriggerPair) : Bool :=
  ts.any (fun t => objDeltaChanged t.sig && objEqualCycleEdge t.sig t.edge)

/-- The condition the specification ascribes to a trigger pair:
`sig.is_cycle_changed() ∧ sig.edge_matches(edge)`. -/
def specPairFires (t : TriggerPair) : Bool :=
  (match t.sig with
   | .direct s => isCycleChanged s && equalCycleEdge s t.edge
   | .aliased s => isCycleChanged s && equalCycleEdge s t.edge)

/-- Execution phases of `hdlproto/simulation_context.py` (`_Phase`). -/
inductive Phase where
  | alwaysComb
  | alwaysFF
deriving DecidableEq

/-- State of `_SimulationContext`: the currently executing process (by
identity), its phase, the per-signal write log, and the delta-cycle flag. -/
structure Ctx where
  currentFunction : Option Nat := none
  currentPhase : Option Phase := none
  writeLog : List (Nat × List (Option Nat)) := []
  deltaCycle : Bool := false
deriving DecidableEq

/-- Lookup of `self._write_log.setdefault(signal, set())`. -/
def logLookup : List (Nat × List (Option Nat)) → Nat → List (Option Nat)
  | [], _ => []
  | p :: ps, sid => if p.1 == sid then p.2 else logLookup ps sid

/-- Replace (or create) the entry of one signal in the write log (Python
dict assignment: overwrite the existing key, else append). -/
def logInsert : List (Nat × List (Option Nat)) → Nat → List (Option Nat) →
    List (Nat × List (Option Nat))
  | [], sid, fs => [(sid, fs)]
  | p :: ps, sid, fs =>
    if p.1 == sid then (p.1, fs) :: ps else p :: logInsert ps sid fs

/-- `_SimulationContext._record_write`: the `RuntimeError` guard for a
process-less write during a delta cycle, the two phase/kind legality
checks, then driver bookkeeping (idempotent for the same function, error
naming every driver once two distinct functions wrote the signal). -/
def recordWrite (ctx : Ctx) (sid : Nat) (isReg : Bool) : Except SimError Ctx :=
  if ctx.deltaCycle && ctx.currentFunction == none then
    .error .writeOutsideProcess
  else if isReg && ctx.currentPhase == some Phase.alwaysComb then
    .error .illegalCombWriteToReg
  else if !isReg && ctx.currentPhase == some Phase.alwaysFF then
    .error .illegalSeqWriteToWire
  else
    let funcs := logLookup ctx.writeLog sid
    if ctx.currentFunction ∈ funcs then .ok ctx
    else
      let funcs' := funcs ++ [ctx.currentFunction]
      if funcs'.length > 1 then .error (.signalWriteConflictOld funcs')
      else .ok { ctx with writeLog := logInsert ctx.writeLog sid funcs' }

/-- `_SimulationContext._clear` (dead code in the source: no caller). -/
def ctxClear (ctx : Ctx) : Ctx := { ctx with writeLog := [] }

end Old

namespace ESig

/-- State of the event-based `_Signal` / `_SignalBase`
(`hdlproto/signal/signal.py`): committed value, pending slot, and the two
stored previous values used for trigger and write change detection. -/
structure Sig where
  sign : Bool
  width : Nat
  prevTrigger : Int
  prevWrite : Int
  value : Int
  pending : Option Int
deriving DecidableEq

/-- `_SignalSignOperator.__to_unsigned`: `value & (2^width - 1)`. -/
def toUnsigned (w : Nat) (v : Int) : Int := maskLow v w

/-- Python `value & sign_bit` for the single bit `2^k` of an arbitrary
int: bit `k` of the two's complement is `(v >> k) % 2`. -/
def bitAt (v : Int) (k : Nat) : Int := shiftR v k % 2 * pow2 k

/-- `_SignalSignOperator.__to_signed`:
`(value & (sign_bit - 1)) - (value & sign_bit)` with `sign_bit = 2^(width-1)`. -/
def toSigned (w : Nat) (v : Int) : Int := maskLow v (w - 1) - bitAt v (w - 1)

/-- `_SignalSignOperator.__make_integer`. -/
def toInteger (sign : Bool) (w : Nat) (v : Int) : Int :=
  if sign then toSigned w v else toUnsigned w v

/-- `_Signal._get`: the committed raw value through the sign interpreter. -/
def get (s : Sig) : Int := toInteger s.sign s.width s.value

/-- `_Signal._set`: mask the written value to the width; stage it as
pending when it differs from the committed value, otherwise clear the
pending slot.  Returns the `value_changed` flag. -/
def set (s : Sig) (v : Int) : Sig × Bool :=
  let nbits := toUnsigned s.width v
  let changed := nbits != s.value
  ({ s with pending := if changed then some nbits else none }, changed)

/-- Low end of a slice after `_SignalBitOperator`'s order normalisation. -/
def sliceLow (a b : Nat) : Nat := min a b

/-- Width of the `[a:b]` slice: `max - min + 1`. -/
def sliceWidth (a b : Nat) : Nat := max a b - min a b + 1

/-- `_SignalBitOperator._get_bit` on the raw value:
`(value & mask) >> start = (value >> start) & (2^n - 1)`. -/
def getBitRaw (v : Int) (a b : Nat) : Int :=
  maskLow (shiftR v (sliceLow a b)) (sliceWidth a b)

/-- `_SignalBitOperator._set_bit` on the raw value:
`(value & ~mask) | ((new_value << start) & mask)`; the cleared base is
`value - ((value >> start) & (2^n - 1)) << start` and the OR is a sum of
bit-disjoint terms. -/
def setBitRaw (v : Int) (a b : Nat) (nv : Int) : Int :=
  let n := sliceWidth a b
  let l := sliceLow a b
  (v - maskLow (shiftR v l) n * pow2 l) + maskLow nv n * pow2 l

/-- `_Signal._get_bit` (note the quirk: the slice value goes through the
sign interpreter of the full signal width). -/
def getBit (s : Sig) (a b : Nat) : Int :=
  toInteger s.sign s.width (getBitRaw s.value a b)

/-- `_Signal._set_bit`: merge into the **committed** raw value, then stage
the merge as pending when it differs from the committed value (clearing
the pending slot otherwise).  Returns the `value_changed` flag. -/
def setBit (s : Sig) (a b : Nat) (nv : Int) : Sig × Bool :=
  let bits := setBitRaw s.value a b nv
  let changed := bits != s.value
  ({ s with pending := if changed then some bits else none }, changed)

/-- `_Signal._store_stabled_value_for_trigger`. -/
def storeTrigger (s : Sig) : Sig := { s with prevTrigger := s.value }

/-- `_Signal._store_stabled_value_for_write`. -/
def storeWrite (s : Sig) : Sig := { s with prevWrite := s.value }

/-- `_Signal._is_write`. -/
def isWrite (s : Sig) : Bool := s.value != s.prevWrite

/-- `_Signal._is_edge_match_expected` (Python truthiness: `not prev`
means the stored value is zero). -/
def isEdgeMatchExpected (s : Sig) (e : Edge) : Bool :=
  let posedge := s.prevTrigger == 0 && s.value != 0
  let negedge := s.prevTrigger != 0 && s.value == 0
  (posedge && e == Edge.pos) || (negedge && e == Edge.neg)

/-- `_Signal._update`: commit the pending value; the return value is the
`is_unstable` flag. -/
def update (s : Sig) : Sig × Bool :=
  match s.pending with
  | some p => ({ s with value := p, pending := none }, true)
  | none => (s, false)

end ESig

namespace Mgr

/-- The tuple `wire_sources` of `_SignalManager._validate_access_rules`. -/
def wireSources : List EventSource :=
  [.wireS, .inputS, .outputS, .externalS]

/-- The tuple `ff_phases` of `_SignalManager._validate_access_rules`. -/
def ffPhases : List EventSource :=
  [.alwaysFFS, .alwaysFFPosS, .alwaysFFNegS]

/-- `_SignalManager._validate_access_rules`: a `Reg`-sourced write during
`always_comb`, or a wire-family write during `always_ff`, is a
`SignalInvalidAccess`. -/
def validateAccessRules (signalSource : EventSource) (funcPhase : EventSource) :
    Option SimError :=
  if signalSource == .regS && funcPhase == .alwaysCombS then
    some .illegalCombWriteToReg
  else if wireSources.contains signalSource && ffPhases.contains funcPhase then
    some .illegalSeqWriteToWire
  else none

/-- Identity of the currently executing process as the event pipeline
records it (`function_name` + `module_path`, collapsed to one id) plus its
source type. -/
structure FuncInfo where
  pid : Nat
  srcType : EventSource
deriving DecidableEq

/-- The `_SignalManager._signal_writers` dict: signal label to the
identity of the last recorded writer. -/
abbrev Writers := List (Nat × Nat)

/-- Dict lookup. -/
def wlookup : Writers → Nat → Option Nat
  | [], _ => none
  | p :: ps, sid => if p.1 == sid then some p.2 else wlookup ps sid

/-- Dict assignment `self._signal_writers[signal_label] = {...}`
(insertion order preserved, existing key overwritten, new key appended). -/
def winsert : Writers → Nat → Nat → Writers
  | [], sid, pid => [(sid, pid)]
  | p :: ps, sid, pid =>
    if p.1 == sid then (p.1, pid) :: ps else p :: winsert ps sid pid

/-- `_SignalManager._ensure_no_conflict`: no entry or the same function
is fine; a distinct recorded function is a `SignalWriteConflict` naming
both. -/
def ensureNoConflict (ws : Writers) (sid : Nat) (pid : Nat) : Option SimError :=
  match wlookup ws sid with
  | none => none
  | some prev => if prev == pid then none else some (.signalWriteConflict prev pid)

/-- `_SignalManager._handle_signal_write_tracked`: writes without a
current function are ignored entirely; otherwise validate the access
rules, check for a driver conflict, and record the writer. -/
def handleWriteTracked (ws : Writers) (fi : Option FuncInfo)
    (signalSource : EventSource) (sid : Nat) : Except SimError Writers :=
  match fi with
  | none => .ok ws
  | some f =>
    match validateAccessRules signalSource f.srcType with
    | some e => .error e
    | none =>
      match ensureNoConflict ws sid f.pid with
      | some e => .error e
      | none => .ok (winsert ws sid f.pid)

end Mgr

namespace Pipe

/-- Classification a signal-list entry receives in
`_EnvironmentBuilder._collect_and_configure_signals` (`_SignalType`). -/
inductive Kind where
  | wireK
  | regK
  | inputK
  | outputK
  | externK
deriving DecidableEq

/-- One entry of the `_SignalList`.  Several entries may share the same
underlying signal id (`sid`): an `Input` / `Output` alias shares the
`_signal` object of the `Wire` it wraps. -/
structure Entry where
  sid : Nat
  kind : Kind
deriving DecidableEq

/-- Underlying signal objects, keyed by signal id. -/
abbrev Store := List (Nat × ESig.Sig)

/-- Placeholder for a lookup of an id that is not in the store (does not
arise in well-formed designs). -/
def defaultSig : ESig.Sig :=
  { sign := false, width := 1, prevTrigger := 0, prevWrite := 0, value := 0,
    pending := none }

/-- Fetch the underlying signal object of an id. -/
def storeGet : Store → Nat → ESig.Sig
  | [], _ => defaultSig
  | p :: ps, sid => if p.1 == sid then p.2 else storeGet ps sid

/-- Replace the underlying signal object of an id (Python mutates the
shared object in place; an absent id is a no-op). -/
def storeSet : Store → Nat → ESig.Sig → Store
  | [], _, _ => []
  | p :: ps, sid, s =>
    if p.1 == sid then (p.1, s) :: ps else p :: storeSet ps sid s

/-- One staged assignment a process body performs: the target signal id,
the written value, and the `_EventSource` of the wrapper class used at
the write site (`Wire` fires `WIRE`, `Reg` fires `REG`, `Output` fires
`OUTPUT`). -/
structure WriteCmd where
  sid : Nat
  value : Int
  src : EventSource

/-- A bound `@always_comb` process: reads committed values, emits its
sequence of writes. -/
structure CombProc where
  pid : Nat
  body : (Nat → Int) → List WriteCmd

/-- One resolved trigger of an `@always_ff` process: edge, signal id, and
the wrapper class the attribute lookup resolved to. -/
structure TrigSpec where
  edge : Edge
  sid : Nat
  wrap : Kind

/-- A bound `@always_ff` process with its decorator source type
(`ALWAYS_FF_POS` / `ALWAYS_FF_NEG` per the first trigger edge). -/
structure FFProc where
  pid : Nat
  srcType : EventSource
  triggers : List TrigSpec
  body : (Nat → Int) → List WriteCmd

/-- A built simulation environment: the signal list, the two process
buckets (in registration order) and the configured `max_comb_loops`. -/
structure Design where
  entries : List Entry
  combProcs : List CombProc
  ffProcs : List FFProc
  maxCombLoops : Nat

/-- Mutable simulation state: the signal store plus the
`_SignalManager._signal_writers` log. -/
structure SimState where
  store : Store
  writers : Mgr.Writers
deriving DecidableEq

/-- Trace events recording the observable order of the scheduler. -/
inductive PEv where
  | commitExternals
  | evalFF (pid : Nat)
  | evalComb (pid : Nat)
  | commitWires
  | commitRegs
deriving DecidableEq

/-- Committed-value read used by process bodies (`_Signal._get` through a
wrapper's property). -/
def readFun (st : SimState) : Nat → Int :=
  fun sid => ESig.get (storeGet st.store sid)

/-- One write through a wrapper's property setter: `_Signal._set` stages
the pending value, then the fired event reaches
`_SignalManager._handle_signal_write_tracked`, which may raise; the
staged pending survives the raise (Python mutates before the event). -/
def performWrite (st : SimState) (fi : Option Mgr.FuncInfo) (c : WriteCmd) :
    SimState × Option SimError :=
  let sig := storeGet st.store c.sid
  let sig' := (ESig.set sig c.value).1
  let store' := storeSet st.store c.sid sig'
  match Mgr.handleWriteTracked st.writers fi c.src c.sid with
  | .error e => ({ st with store := store' }, some e)
  | .ok ws => ({ store := store', writers := ws }, none)

/-- Execute a body's writes in order, aborting at the first error. -/
def runCmds (st : SimState) (fi : Option Mgr.FuncInfo) :
    List WriteCmd → SimState × Option SimError
  | [] => (st, none)
  | c :: cs =>
    match performWrite st fi c with
    | (st', none) => runCmds st' fi cs
    | (st', some e) => (st', some e)

/-- `_FunctionManager._evaluate_always_comb`: run every combinational
process in registration order (each surrounded by `FUNCTION_START` /
`FUNCTION_END`, which set the current-function info). -/
def runCombProcs (st : SimState) : List CombProc → SimState × List PEv × Option SimError
  | [] => (st, [], none)
  | p :: ps =>
    match runCmds st (some { pid := p.pid, srcType := .alwaysCombS }) (p.body (readFun st)) with
    | (st', none) =>
      let r := runCombProcs st' ps
      (r.1, PEv.evalComb p.pid :: r.2.1, r.2.2)
    | (st', some e) => (st', [PEv.evalComb p.pid], some e)

/-- `_update` dispatch through a list entry's wrapper: `Input._update`
is overridden to return `False` without touching the shared signal. -/
def entryUpdate (st : Store) (e : Entry) : Store × Bool :=
  match e.kind with
  | .inputK => (st, false)
  | _ =>
    let r := ESig.update (storeGet st e.sid)
    (storeSet st e.sid r.1, r.2)

/-- Iteration of `_SignalList._of_type(...)._execute("_update")` over the
filtered entries, collecting `any` of the change flags. -/
def updateEntries (ks : List Kind) : List Entry → Store × Bool → Store × Bool
  | [], acc => acc
  | e :: es, acc =>
    if ks.contains e.kind then
      let r := entryUpdate acc.1 e
      updateEntries ks es (r.1, acc.2 || r.2)
    else updateEntries ks es acc

/-- `_SignalList._of_type(...)._execute("_update")` folded with `any`:
update every entry of the given kinds, collecting whether any changed. -/
def updateOfKinds (d : Design) (st : Store) (ks : List Kind) : Store × Bool :=
  updateEntries ks d.entries (st, false)

/-- Kinds filtered by `_SignalManager._update_wires` and
`_store_stabled_value_for_trigger`. -/
def wireKinds : List Kind := [.wireK, .inputK, .outputK]

/-- Iteration of `_execute("_store_stabled_value_for_trigger")`. -/
def storeTriggerEntries : List Entry → Store → Store
  | [], st => st
  | e :: es, st =>
    if wireKinds.contains e.kind then
      storeTriggerEntries es (storeSet st e.sid (ESig.storeTrigger (storeGet st e.sid)))
    else storeTriggerEntries es st

/-- `_SignalManager._store_stabled_value_for_trigger`: store the trigger
snapshot through every WIRE / INPUT / OUTPUT entry (each forwards to its
shared underlying signal). -/
def storeTriggerAll (d : Design) (st : Store) : Store :=
  storeTriggerEntries d.entries st

/-- Iteration of `_execute("_store_stabled_value_for_write")`. -/
def storeWriteEntries : List Entry → Store → Store
  | [], st => st
  | e :: es, st =>
    storeWriteEntries es (storeSet st e.sid (ESig.storeWrite (storeGet st e.sid)))

/-- `_SignalManager._store_stabled_value_for_write`: every entry. -/
def storeWriteAll (d : Design) (st : Store) : Store :=
  storeWriteEntries d.entries st

/-- `_SignalManager._is_write`: `any` over every entry. -/
def isWriteAny (d : Design) (st : Store) : Bool :=
  d.entries.any (fun e => ESig.isWrite (storeGet st e.sid))

/-- Result of the trigger wrapper's `_is_edge_match_expected` call:
`Input` returns the underlying result; `Wire` and `Output` lack the
`return` keyword and deliver Python `None` (and a `Reg` / external `Wire`
trigger object misbehaves the same way), modelled as `none`. -/
def trigWrapperEdge (k : Kind) (s : ESig.Sig) (e : Edge) : Option Bool :=
  match k with
  | .inputK => some (ESig.isEdgeMatchExpected s e)
  | _ => none

/-- The trigger loop of `_FunctionManager._is_always_ff_triggered`:
accumulate `is_triggered |= signal._is_write() and
signal._is_edge_match_expected(edge)` over the resolved triggers; when
the conjunction delivers `None`, the `|=` raises a `TypeError`, which
absorbs the rest of the loop. -/
def ffTriggeredAux (st : SimState) :
    List TrigSpec → Except SimError Bool → Except SimError Bool
  | [], acc => acc
  | t :: ts, acc =>
    match acc with
    | .error e => ffTriggeredAux st ts (.error e)
    | .ok b =>
      let s := storeGet st.store t.sid
      if ESig.isWrite s then
        match trigWrapperEdge t.wrap s t.edge with
        | some r => ffTriggeredAux st ts (.ok (b || r))
        | none => ffTriggeredAux st ts (.error .noneTypeError)
      else ffTriggeredAux st ts (.ok b)

/-- `_FunctionManager._is_always_ff_triggered`. -/
def ffTriggered (st : SimState) (f : FFProc) : Except SimError Bool :=
  ffTriggeredAux st f.triggers (.ok false)

/-- `_FunctionManager._extract_triggerd_always_ff`: collect the triggered
sequential processes in registration order. -/
def extractTriggered (st : SimState) : List FFProc → Except SimError (List FFProc)
  | [] => .ok []
  | f :: fs =>
    match ffTriggered st f with
    | .error e => .error e
    | .ok b =>
      match extractTriggered st fs with
      | .error e => .error e
      | .ok rest => .ok (if b then f :: rest else rest)

/-- `_FunctionManager._evaluate_always_ff`: run the triggered sequential
processes in order. -/
def runFFProcs (st : SimState) : List FFProc → SimState × List PEv × Option SimError
  | [] => (st, [], none)
  | f :: fs =>
    match runCmds st (some { pid := f.pid, srcType := f.srcType }) (f.body (readFun st)) with
    | (st', none) =>
      let r := runFFProcs st' fs
      (r.1, PEv.evalFF f.pid :: r.2.1, r.2.2)
    | (st', some e) => (st', [PEv.evalFF f.pid], some e)

/-- Result of the combinational stabilisation loop. -/
structure CombRes where
  st : SimState
  trace : List PEv
  err : Option SimError
  passes : Nat

/-- `_SimulationExector._evaluate_always_comb`: up to `fuel` passes of
(evaluate every combinational process; commit wire-family pendings); stop
as soon as a pass leaves every wire stable, raise `SignalUnstableError`
when the fuel (`max_comb_loops`) is exhausted.  The state accompanying an
error is the state after the last completed pass (Python mutates in
place and does not roll back). -/
def combLoopAux (d : Design) (st : SimState) : Nat → CombRes
  | 0 => { st := st, trace := [], err := some .didNotConverge, passes := 0 }
  | fuel + 1 =>
    let r1 := runCombProcs st d.combProcs
    match r1.2.2 with
    | some e => { st := r1.1, trace := r1.2.1, err := some e, passes := 0 }
    | none =>
      let r2 := updateOfKinds d r1.1.store wireKinds
      let st2 : SimState := { r1.1 with store := r2.1 }
      if r2.2 then
        let rec' := combLoopAux d st2 fuel
        { rec' with trace := r1.2.1 ++ [PEv.commitWires] ++ rec'.trace,
                    passes := rec'.passes + 1 }
      else
        { st := st2, trace := r1.2.1 ++ [PEv.commitWires], err := none, passes := 1 }

/-- The combinational loop with the configured iteration bound. -/
def evaluateAlwaysComb (d : Design) (st : SimState) : CombRes :=
  combLoopAux d st d.maxCombLoops

/-- Result of one iteration of the `while` loop of
`Simulator._half_clock`. -/
structure IterRes where
  st : SimState
  trace : List PEv
  err : Option SimError
  again : Bool

/-- One iteration of `Simulator._half_clock`'s loop:
extract the triggered sequential processes, run them, run the
combinational fixed point, commit register pendings, compute
`_is_write()` (the loop-continuation flag), store the write snapshots. -/
def runIteration (d : Design) (st : SimState) : IterRes :=
  match extractTriggered st d.ffProcs with
  | .error e => { st := st, trace := [], err := some e, again := false }
  | .ok trig =>
    let rFF := runFFProcs st trig
    match rFF.2.2 with
    | some e => { st := rFF.1, trace := rFF.2.1, err := some e, again := false }
    | none =>
      let rC := evaluateAlwaysComb d rFF.1
      match rC.err with
      | some e => { st := rC.st, trace := rFF.2.1 ++ rC.trace, err := some e, again := false }
      | none =>
        let rR := updateOfKinds d rC.st.store [Kind.regK]
        let st3 : SimState := { rC.st with store := rR.1 }
        let isw := isWriteAny d st3.store
        let st4 : SimState := { st3 with store := storeWriteAll d st3.store }
        { st := st4, trace := rFF.2.1 ++ rC.trace ++ [PEv.commitRegs],
          err := none, again := isw }

/-- The `while _is_write is not False` loop of `Simulator._half_clock`,
with explicit fuel standing in for Python's unbounded iteration. -/
def halfClockLoop (d : Design) (st : SimState) : Nat → SimState × List PEv × Option SimError
  | 0 => (st, [], some .outOfFuel)
  | fuel + 1 =>
    let r := runIteration d st
    match r.err with
    | some e => (r.st, r.trace, some e)
    | none =>
      if r.again then
        let rest := halfClockLoop d r.st fuel
        (rest.1, r.trace ++ rest.2.1, rest.2.2)
      else (r.st, r.trace, none)

/-- `Simulator._half_clock`: store trigger snapshots, store write
snapshots, commit external pendings, then iterate. -/
def halfClock (d : Design) (st : SimState) (fuel : Nat) :
    SimState × List PEv × Option SimError :=
  let s1 := storeTriggerAll d st.store
  let s2 := storeWriteAll d s1
  let r3 := updateOfKinds d s2 [Kind.externK]
  let st3 : SimState := { st with store := r3.1 }
  let rest := halfClockLoop d st3 fuel
  (rest.1, PEv.commitExternals :: rest.2.1, rest.2.2)

/-- The clock toggle `self._config.clock.w = 0 if self._config.clock.w else 1`
issued by `Simulator.clock` / `half_clock`: a process-less write through
the testbench clock `Wire`. -/
def toggleClock (st : SimState) (clkSid : Nat) : SimState :=
  let cur := ESig.get (storeGet st.store clkSid)
  let nv : Int := if cur ≠ 0 then 0 else 1
  (performWrite st none { sid := clkSid, value := nv, src := .wireS }).1

/-- `Simulator.clock`: toggle, half clock, toggle, half clock (the second
half is skipped when the first raises). -/
def clockStep (d : Design) (st : SimState) (clkSid : Nat) (fuel : Nat) :
    SimState × List PEv × Option SimError :=
  let r1 := halfClock d (toggleClock st clkSid) fuel
  match r1.2.2 with
  | some e => (r1.1, r1.2.1, some e)
  | none =>
    let r2 := halfClock d (toggleClock r1.1 clkSid) fuel
    (r2.1, r1.2.1 ++ r2.2.1, r2.2.2)

end Pipe

namespace Pipe

/-- A fresh unsigned signal of the given width (all slots zero), as
constructed by `Wire()` / `Reg()` with the default `init=0`. -/
def mkSig (w : Nat) : ESig.Sig :=
  { sign := false, width := w, prevTrigger := 0, prevWrite := 0, value := 0,
    pending := none }

/-- Predicate picking out `evalFF` events. -/
def isFFEv : PEv → Bool
  | .evalFF _ => true
  | _ => false

/-- Predicate picking out `evalComb` events. -/
def isCombEv : PEv → Bool
  | .evalComb _ => true
  | _ => false

/-- A signal id is register-exclusive in a design when some entry lists it
as a register and every entry for it is the register itself or an `Input`
view (whose `_update` is inert), so that only the register-commit phase
can change its committed value. -/
def regExclusive (d : Design) (sid : Nat) : Prop :=
  (∃ e ∈ d.entries, e.sid = sid ∧ e.kind = Kind.regK) ∧
    ∀ e ∈ d.entries, e.sid = sid → e.kind = Kind.regK ∨ e.kind = Kind.inputK

/-- Scheduler-state invariant holding at the start of every loop iteration
for register-exclusive ids: the stored write snapshot equals the committed
value (the snapshot is refreshed at the end of the previous iteration and
nothing but the register commit may move the value in between). -/
def stInv (d : Design) (st : SimState) : Prop :=
  ∀ sid, regExclusive d sid →
    (storeGet st.store sid).prevWrite = (storeGet st.store sid).value

/-- Whether an id is present in the store. -/
def storeHas : Store → Nat → Bool
  | [], _ => false
  | p :: ps, sid => if p.1 == sid then true else storeHas ps sid

/-- Two stores agree on committed value, write snapshot and key set at
every id (write phases only stage pendings, so they relate their input
and output stores this way). -/
def fieldsPreserved (a b : Store) : Prop :=
  ∀ j, (storeGet a j).value = (storeGet b j).value ∧
    (storeGet a j).prevWrite = (storeGet b j).prevWrite ∧
    storeHas a j = storeHas b j

/-- An id is shielded from an update sweep over the given kinds when
every list entry for it either is not of the swept kinds or is an
`Input` view (whose `_update` override is inert). -/
def shielded (ks : List Kind) (es : List Entry) (j : Nat) : Prop :=
  ∀ e ∈ es, e.sid = j → e.kind ∉ ks ∨ e.kind = Kind.inputK

/-- Design for the C1 scenario: an external clock `0` with its `Input`
view inside a module, a register `1` and a wire `2`; one combinational
process (pid 1) copies the register to the wire, one sequential process
(pid 2) on the positive clock edge loads the register with 1. -/
def c1Design : Design :=
  { entries := [⟨0, .externK⟩, ⟨0, .inputK⟩, ⟨1, .regK⟩, ⟨2, .wireK⟩],
    combProcs := [⟨1, fun r => [⟨2, r 1, .wireS⟩]⟩],
    ffProcs := [⟨2, .alwaysFFPosS, [⟨.pos, 0, .inputK⟩], fun _ => [⟨1, 1, .regS⟩]⟩],
    maxCombLoops := 30 }

/-- Initial state of the C1 scenario. -/
def c1State : SimState :=
  { store := [(0, mkSig 1), (1, mkSig 4), (2, mkSig 4)], writers := [] }

/-- One positive half clock of the C1 scenario. -/
def c1Run : SimState × List PEv × Option SimError :=
  halfClock c1Design (toggleClock c1State 0) 8

/-- Design for the C5 scenario (spec §8, scenario 6): an external clock
`0` and a wire `1` driven by the combinational oscillator `osc ← ¬osc`,
with `max_iterations = 4`. -/
def c5Design : Design :=
  { entries := [⟨0, .externK⟩, ⟨1, .wireK⟩],
    combProcs := [⟨1, fun r => [⟨1, if r 1 = 0 then 1 else 0, .wireS⟩]⟩],
    ffProcs := [],
    maxCombLoops := 4 }

/-- Initial state of the C5 scenario. -/
def c5State : SimState :=
  { store := [(0, mkSig 1), (1, mkSig 1)], writers := [] }

/-- A single `step_clock()` call on the oscillator design. -/
def c5Run : SimState × List PEv × Option SimError :=
  clockStep c5Design c5State 0 8

/-- The default of the `max_comb_loops` parameter of `SimConfig`. -/
def defaultMaxCombLoops : Nat := 30

/-- Design for the C6 scenario: external clock `0`, external enable `1`,
wire `2`; process 10 drives the wire while the enable is high, process 11
drives it while the enable is low, so each tick has a single driver. -/
def c6Design : Design :=
  { entries := [⟨0, .externK⟩, ⟨1, .externK⟩, ⟨2, .wireK⟩],
    combProcs := [⟨10, fun r => if r 1 ≠ 0 then [⟨2, 1, .wireS⟩] else []⟩,
                  ⟨11, fun r => if r 1 = 0 then [⟨2, 0, .wireS⟩] else []⟩],
    ffProcs := [],
    maxCombLoops := 30 }

/-- Initial state of the C6 scenario. -/
def c6State : SimState :=
  { store := [(0, mkSig 1), (1, mkSig 1), (2, mkSig 1)], writers := [] }

/-- Tick 1 of the C6 scenario: the testbench drives the enable high
(process-less write), then calls `clock()`. -/
def c6Tick1 : SimState × List PEv × Option SimError :=
  clockStep c6Design (performWrite c6State none ⟨1, 1, .wireS⟩).1 0 8

/-- Tick 2 of the C6 scenario: the testbench drives the enable low, then
calls `clock()` again. -/
def c6Tick2 : SimState × List PEv × Option SimError :=
  clockStep c6Design (performWrite c6Tick1.1 none ⟨1, 0, .wireS⟩).1 0 8

/-- Design for the C9 scenario: external clock `0` and a wire `2` that
belongs to a child module (classified `WIRE`, not `EXTERNAL`). -/
def c9Design : Design :=
  { entries := [⟨0, .externK⟩, ⟨2, .wireK⟩],
    combProcs := [],
    ffProcs := [],
    maxCombLoops := 30 }

/-- Initial state of the C9 scenario. -/
def c9State : SimState :=
  { store := [(0, mkSig 1), (2, mkSig 4)], writers := [] }

/-- A process-less (testbench) write of 3 to the child wire `2`. -/
def c9Write : SimState × Option SimError :=
  performWrite c9State none ⟨2, 3, .wireS⟩

/-- Design for the C10 loop conjunct: external clock `0`, wire `1` whose
single combinational process rewrites the wire with its current committed
value. -/
def c10Design : Design :=
  { entries := [⟨0, .externK⟩, ⟨1, .wireK⟩],
    combProcs := [⟨1, fun r => [⟨1, r 1, .wireS⟩]⟩],
    ffProcs := [],
    maxCombLoops := 30 }

/-- Initial state of the C10 scenario (wire committed at 5). -/
def c10State : SimState :=
  { store := [(0, mkSig 1),
              (1, { sign := false, width := 4, prevTrigger := 5, prevWrite := 5,
                    value := 5, pending := none })],
    writers := [] }

end Pipe

/-- Event-based state used against claim C2: id 0 holds a signal whose
value rose from 0 to 1 since both stored snapshots (a positive edge with
a pending write change). -/
def c2EvState : Pipe.SimState :=
  { store := [(0, { sign := false, width := 1, prevTrigger := 0,
                    prevWrite := 0, value := 1, pending := none })],
    writers := [] }

/-- Event-based state used against claim C2 with the same signal quiet
(no change since the write snapshot). -/
def c2IdleState : Pipe.SimState :=
  { store := [(0, { sign := false, width := 1, prevTrigger := 0,
                    prevWrite := 1, value := 1, pending := none })],
    writers := [] }

/-- Sequential process whose trigger name resolved to the `Input` view of
signal 0. -/
def c2ffInput : Pipe.FFProc :=
  ⟨3, .alwaysFFPosS, [⟨.pos, 0, .inputK⟩], fun _ => []⟩

/-- The same sequential process with the trigger name resolved to the
terminal `Wire` itself. -/
def c2ffWire : Pipe.FFProc :=
  ⟨3, .alwaysFFPosS, [⟨.pos, 0, .wireK⟩], fun _ => []⟩

/-- Concrete signal used against claim C2: current value 1, cycle snapshot
0 (a positive edge against the cycle snapshot), delta snapshot already 1
(unchanged since the delta snapshot). -/
def c2sig : Old.Sig :=
  { width := 1, value := 1, pending := none, snapshotDelta := 1,
    snapshotCycle := 0, snapshotEpsilon := 0 }

/-- Concrete signed signal used against claim C7: `Wire(sign=True, width=4)`. -/
def c7sig : ESig.Sig :=
  { sign := true, width := 4, prevTrigger := 0, prevWrite := 0, value := 0,
    pending := none }

/-- Read-back of a full write through the classic variant:
`_write`, `_commit`, then the committed value. -/
def Old.writeCommitRead (s : Old.Sig) (v : Int) : Int :=
  Old.read (Old.commit (Old.write s v))

/-- Read-back of a full write through the event-based variant:
`_set`, `_update`, then `_get`. -/
def ESig.setUpdateGet (s : ESig.Sig) (v : Int) : Int :=
  ESig.get (ESig.update (ESig.set s v).1).1

/-- Committed raw value after a full write through the event-based
variant. -/
def ESig.setUpdateRaw (s : ESig.Sig) (v : Int) : Int :=
  (ESig.update (ESig.set s v).1).1.value

/-- Concrete unsigned width-8 signal used against claim C8
(committed value 0). -/
def c8sig : ESig.Sig :=
  { sign := false, width := 8, prevTrigger := 0, prevWrite := 0, value := 0,
    pending := none }

/-- Old-variant context with no executing process outside a delta cycle
(the situation of testbench code between steps). -/
def c9ctx : Old.Ctx :=
  { currentFunction := none, currentPhase := none, writeLog := [],
    deltaCycle := false }

/-- Decidable equality for `Except` results, used to evaluate concrete
runs of the fallible operations. -/
instance instDecEqExcept {e a : Type} [DecidableEq e] [DecidableEq a] :
    DecidableEq (Except e a) := fun x y =>
  match x, y with
  | .error u, .error v =>
    if h : u = v then .isTrue (by rw [h])
    else .isFalse (by intro hx; cases hx; exact h rfl)
  | .error _, .ok _ => .isFalse (by intro hx; cases hx)
  | .ok _, .error _ => .isFalse (by intro hx; cases hx)
  | .ok u, .ok v =>
    if h : u = v then .isTrue (by rw [h])
    else .isFalse (by intro hx; cases hx; exact h rfl)

/-- Events legal inside the combinational part of an iteration:
process evaluations and wire commits. -/
def Pipe.combShapeEv : Pipe.PEv → Bool
  | .evalComb _ => true
  | .commitWires => true
  | _ => false

/-! ## Theorems -/

/-- Every non-`Input` trigger wrapper's `_is_edge_match_expected`
delivers `None`. -/
theorem Pipe.trigWrapperEdge_nonInput (k : Pipe.Kind) (s : ESig.Sig) (e : Edge)
    (h : k ≠ Pipe.Kind.inputK) : Pipe.trigWrapperEdge k s e = none := by
  cases k <;> first | rfl | exact absurd rfl h

/-- A raised `TypeError` absorbs the rest of the trigger loop. -/
theorem Pipe.ffTriggeredAux_error (st : Pipe.SimState) :
    ∀ (ts : List Pipe.TrigSpec) (e : SimError),
      Pipe.ffTriggeredAux st ts (.error e) = .error e := by
  intro ts
  induction ts with
  | nil => intro e; rfl
  | cons t ts ih => intro e; simpa [Pipe.ffTriggeredAux] using ih e

/-- If no trigger of the list resolved to an `Input`, the trigger loop
can only answer `False` (or raise): the accumulator is never OR-ed with
a real `True`. -/
theorem Pipe.ffTriggeredAux_noInput (st : Pipe.SimState) :
    ∀ (ts : List Pipe.TrigSpec), (∀ t ∈ ts, t.wrap ≠ Pipe.Kind.inputK) →
      ∀ b, Pipe.ffTriggeredAux st ts (.ok false) = .ok b → b = false := by
  intro ts
  induction ts with
  | nil =>
    intro _ b hb
    simp only [Pipe.ffTriggeredAux] at hb
    cases hb
    rfl
  | cons t ts ih =>
    intro h b hb
    have ht : t.wrap ≠ Pipe.Kind.inputK := h t (List.mem_cons_self t ts)
    have hts : ∀ u ∈ ts, u.wrap ≠ Pipe.Kind.inputK :=
      fun u hu => h u (List.mem_cons_of_mem t hu)
    simp only [Pipe.ffTriggeredAux,
      Pipe.trigWrapperEdge_nonInput t.wrap _ t.edge ht] at hb
    by_cases hw : ESig.isWrite (Pipe.storeGet st.store t.sid)
    · rw [if_pos hw, Pipe.ffTriggeredAux_error] at hb
      cases hb
    · rw [if_neg hw] at hb
      exact ih hts b hb

/-- C2, counterexample.  The claim says a sequential process fires iff
some `(edge, signal)` pair has the signal changed since the cycle
snapshot with a matching transition, and that the decision is
independent of the wrapper the trigger name resolves to.  Both parts
fail.  First, `c2sig` satisfies exactly the claimed condition (value 1,
cycle snapshot 0: a positive edge, hence cycle-changed), yet
`Trigger._is_triggered` answers `False`, because the code conjoins
`_is_delta_changed()` — change since the *delta* snapshot — and the
delta snapshot already holds 1.  Second, in the event-based variant the
wrapper does matter: on the same terminal signal state (a pending
positive edge), a trigger resolved to the `Input` view fires, while a
trigger resolved to the terminal `Wire` itself raises a `TypeError` —
`Wire._is_edge_match_expected` lacks a `return` and delivers `None`,
which `is_triggered |=` cannot absorb. -/
theorem c2_counterexample :
    Old.isTriggered [⟨Edge.pos, Old.TrigObj.direct c2sig⟩] = false ∧
    Old.isCycleChanged c2sig = true ∧
    Old.equalCycleEdge c2sig Edge.pos = true ∧
    Pipe.ffTriggered c2EvState c2ffInput = .ok true ∧
    Pipe.ffTriggered c2EvState c2ffWire = .error .noneTypeError := by
  decide

/-- C2, amended.  In the classic variant `Trigger._is_triggered` answers
`True` iff some pair satisfies `_is_delta_changed() ∧
_equal_cycle_edge(edge)` — the change test is against the delta
snapshot, not the cycle snapshot — and in that path the decision is
wrapper-independent: a `_Port` alias forwards both predicates to its
terminal signal.  In the event-based variant the decision does depend on
the wrapper the trigger name resolves to: an `Input`-resolved trigger
evaluates exactly the terminal signal's write-change and edge-match
predicates, while a trigger resolved to any other wrapper (`Wire` and
`Output`, whose `_is_edge_match_expected` lacks a `return` and delivers
`None`) can never make the process fire — the loop answers `False` when
no such trigger has a write change, and raises a `TypeError` as soon as
one does. -/
theorem c2_amended_theorem :
    (∀ ts : List Old.TriggerPair,
      Old.isTriggered ts = true ↔
        ∃ t ∈ ts, Old.objDeltaChanged t.sig = true ∧
          Old.objEqualCycleEdge t.sig t.edge = true) ∧
    (∀ (s : Old.Sig) (e : Edge),
      Old.objDeltaChanged (Old.TrigObj.aliased s) = Old.isDeltaChanged s ∧
      Old.objEqualCycleEdge (Old.TrigObj.aliased s) e = Old.equalCycleEdge s e) ∧
    (∀ (s : ESig.Sig) (e : Edge),
      Pipe.trigWrapperEdge Pipe.Kind.inputK s e =
        some (ESig.isEdgeMatchExpected s e)) ∧
    (∀ (st : Pipe.SimState) (f : Pipe.FFProc) (e : Edge) (sid : Nat),
      f.triggers = [⟨e, sid, Pipe.Kind.inputK⟩] →
      Pipe.ffTriggered st f =
        .ok (ESig.isWrite (Pipe.storeGet st.store sid) &&
             ESig.isEdgeMatchExpected (Pipe.storeGet st.store sid) e)) ∧
    (∀ (st : Pipe.SimState) (f : Pipe.FFProc),
      (∀ t ∈ f.triggers, t.wrap ≠ Pipe.Kind.inputK) →
      ∀ b, Pipe.ffTriggered st f = .ok b → b = false) := by
  refine ⟨?_, ?_, ?_, ?_, ?_⟩
  · intro ts
    simp [Old.isTriggered, List.any_eq_true, Bool.and_eq_true]
  · intro s e
    exact ⟨rfl, rfl⟩
  · intro s e
    rfl
  · intro st f e sid hf
    rw [Pipe.ffTriggered, hf]
    by_cases hw : ESig.isWrite (Pipe.storeGet st.store sid)
    · simp [Pipe.ffTriggeredAux, Pipe.trigWrapperEdge, hw]
    · simp [Pipe.ffTriggeredAux, hw]
  · intro st f h b hb
    rw [Pipe.ffTriggered] at hb
    exact Pipe.ffTriggeredAux_noInput st f.triggers h b hb

/-- C2, amended, witness: the classic iff at the counterexample signal;
the `Input`-resolved trigger of `c2ffInput` evaluated by the terminal
signal's predicates; and the `Wire`-resolved trigger of `c2ffWire`
answering `False` on a quiet signal, forced by the amended theorem. -/
theorem c2_amended_witness :
    (Old.isTriggered [⟨Edge.pos, Old.TrigObj.direct c2sig⟩] = true ↔
      ∃ t ∈ [(⟨Edge.pos, Old.TrigObj.direct c2sig⟩ : Old.TriggerPair)],
        Old.objDeltaChanged t.sig = true ∧
        Old.objEqualCycleEdge t.sig t.edge = true) ∧
    Pipe.ffTriggered c2EvState c2ffInput =
      .ok (ESig.isWrite (Pipe.storeGet c2EvState.store 0) &&
           ESig.isEdgeMatchExpected (Pipe.storeGet c2EvState.store 0) Edge.pos) ∧
    ((∀ t ∈ c2ffWire.triggers, t.wrap ≠ Pipe.Kind.inputK) ∧
     Pipe.ffTriggered c2IdleState c2ffWire = .ok false ∧
     false = false) :=
  ⟨c2_amended_theorem.1 [⟨Edge.pos, Old.TrigObj.direct c2sig⟩],
   c2_amended_theorem.2.2.2.1 c2EvState c2ffInput Edge.pos 0 rfl,
   by decide, by decide,
   c2_amended_theorem.2.2.2.2 c2IdleState c2ffWire (by decide) false (by decide)⟩

/-- C3.  Phase/kind legality is enforced at the write attempt in both
variants: the classic `_record_write` raises `SignalInvalidAccess` for a
register written with the context in the `ALWAYS_COMB` phase and for a
wire written in the `ALWAYS_FF` phase; the event-based
`_validate_access_rules` rejects a `REG`-sourced write during
`always_comb` and any wire-family write during an `always_ff` phase; and
the pipeline write helper surfaces exactly that error synchronously from
the write attempt itself. -/
theorem c3_theorem :
    (∀ (ctx : Old.Ctx) (sid : Nat) (f : Nat),
      ctx.currentFunction = some f →
      ctx.currentPhase = some Old.Phase.alwaysComb →
      Old.recordWrite ctx sid true = .error .illegalCombWriteToReg) ∧
    (∀ (ctx : Old.Ctx) (sid : Nat) (f : Nat),
      ctx.currentFunction = some f →
      ctx.currentPhase = some Old.Phase.alwaysFF →
      Old.recordWrite ctx sid false = .error .illegalSeqWriteToWire) ∧
    (Mgr.validateAccessRules .regS .alwaysCombS = some .illegalCombWriteToReg) ∧
    (∀ src fp : EventSource, src ∈ Mgr.wireSources → fp ∈ Mgr.ffPhases →
      Mgr.validateAccessRules src fp = some .illegalSeqWriteToWire) ∧
    (∀ (st : Pipe.SimState) (fi : Mgr.FuncInfo) (c : Pipe.WriteCmd) (e : SimError),
      Mgr.validateAccessRules c.src fi.srcType = some e →
      (Pipe.performWrite st (some fi) c).2 = some e) := by
  refine ⟨?_, ?_, ?_, ?_, ?_⟩
  · intro ctx sid f hf hp
    simp [Old.recordWrite, hf, hp]
  · intro ctx sid f hf hp
    simp [Old.recordWrite, hf, hp]
  · decide
  · intro src fp hs hp
    fin_cases hs <;> fin_cases hp <;> decide
  · intro st fi c e hv
    simp [Pipe.performWrite, Mgr.handleWriteTracked, hv]

/-- C3, witness: a register write in the comb phase, a wire write in the
ff phase, and the validation table entry, each at a concrete input. -/
theorem c3_witness :
    Old.recordWrite
        { currentFunction := some 7, currentPhase := some Old.Phase.alwaysComb,
          writeLog := [], deltaCycle := true } 4 true =
      .error .illegalCombWriteToReg ∧
    Old.recordWrite
        { currentFunction := some 7, currentPhase := some Old.Phase.alwaysFF,
          writeLog := [], deltaCycle := true } 4 false =
      .error .illegalSeqWriteToWire ∧
    Mgr.validateAccessRules .outputS .alwaysFFPosS = some .illegalSeqWriteToWire ∧
    (Pipe.performWrite Pipe.c9State (some ⟨3, .alwaysCombS⟩) ⟨2, 1, .regS⟩).2 =
      some .illegalCombWriteToReg :=
  ⟨c3_theorem.1 _ 4 7 rfl rfl,
   c3_theorem.2.1 _ 4 7 rfl rfl,
   c3_theorem.2.2.2.1 .outputS .alwaysFFPosS (by decide) (by decide),
   c3_theorem.2.2.2.2 Pipe.c9State ⟨3, .alwaysCombS⟩ ⟨2, 1, .regS⟩ _ (by decide)⟩

/-- C4.  Driver-conflict enforcement in both variants: recording the same
process again for a signal it already drives is accepted without error,
while a second distinct process on the same signal raises the conflict
error carrying both process identities. -/
theorem c4_theorem :
    (∀ (ws : Mgr.Writers) (f : Mgr.FuncInfo) (src : EventSource) (sid : Nat),
      Mgr.validateAccessRules src f.srcType = none →
      Mgr.wlookup ws sid = some f.pid →
      Mgr.handleWriteTracked ws (some f) src sid = .ok (Mgr.winsert ws sid f.pid)) ∧
    (∀ (ws : Mgr.Writers) (f : Mgr.FuncInfo) (src : EventSource) (sid q : Nat),
      Mgr.validateAccessRules src f.srcType = none →
      Mgr.wlookup ws sid = some q → q ≠ f.pid →
      Mgr.handleWriteTracked ws (some f) src sid =
        .error (.signalWriteConflict q f.pid)) ∧
    (∀ (ctx : Old.Ctx) (sid : Nat) (isReg : Bool),
      (ctx.deltaCycle && ctx.currentFunction == none) = false →
      (isReg && ctx.currentPhase == some Old.Phase.alwaysComb) = false →
      (!isReg && ctx.currentPhase == some Old.Phase.alwaysFF) = false →
      ctx.currentFunction ∈ Old.logLookup ctx.writeLog sid →
      Old.recordWrite ctx sid isReg = .ok ctx) ∧
    (∀ (ctx : Old.Ctx) (sid : Nat) (isReg : Bool) (g : Option Nat),
      (ctx.deltaCycle && ctx.currentFunction == none) = false →
      (isReg && ctx.currentPhase == some Old.Phase.alwaysComb) = false →
      (!isReg && ctx.currentPhase == some Old.Phase.alwaysFF) = false →
      Old.logLookup ctx.writeLog sid = [g] →
      ctx.currentFunction ≠ g →
      Old.recordWrite ctx sid isReg =
        .error (.signalWriteConflictOld [g, ctx.currentFunction])) := by
  refine ⟨?_, ?_, ?_, ?_⟩
  · intro ws f src sid hv hl
    simp [Mgr.handleWriteTracked, hv, Mgr.ensureNoConflict, hl]
  · intro ws f src sid q hv hl hne
    simp [Mgr.handleWriteTracked, hv, Mgr.ensureNoConflict, hl, hne]
  · intro ctx sid isReg h1 h2 h3 hmem
    simp [Old.recordWrite, h1, h2, h3, hmem]
  · intro ctx sid isReg g h1 h2 h3 hl hne
    simp [Old.recordWrite, h1, h2, h3, hl, hne]

/-- C4, witness: process 5 rewriting its own signal is silent; process 6
then writing the same signal raises the conflict naming 5 and 6, in both
variants. -/
theorem c4_witness :
    Mgr.handleWriteTracked [(2, 5)] (some ⟨5, .alwaysCombS⟩) .wireS 2 =
      .ok (Mgr.winsert [(2, 5)] 2 5) ∧
    Mgr.handleWriteTracked [(2, 5)] (some ⟨6, .alwaysCombS⟩) .wireS 2 =
      .error (.signalWriteConflict 5 6) ∧
    Old.recordWrite
        { currentFunction := some 5, currentPhase := some Old.Phase.alwaysComb,
          writeLog := [(2, [some 5])], deltaCycle := true } 2 false =
      .ok { currentFunction := some 5, currentPhase := some Old.Phase.alwaysComb,
            writeLog := [(2, [some 5])], deltaCycle := true } ∧
    Old.recordWrite
        { currentFunction := some 6, currentPhase := some Old.Phase.alwaysComb,
          writeLog := [(2, [some 5])], deltaCycle := true } 2 false =
      .error (.signalWriteConflictOld [some 5, some 6]) :=
  ⟨c4_theorem.1 [(2, 5)] ⟨5, .alwaysCombS⟩ .wireS 2 (by decide) (by decide),
   c4_theorem.2.1 [(2, 5)] ⟨6, .alwaysCombS⟩ .wireS 2 5 (by decide) (by decide)
     (by decide),
   c4_theorem.2.2.1 _ 2 false (by decide) (by decide) (by decide) (by decide),
   c4_theorem.2.2.2 _ 2 false (some 5) (by decide) (by decide) (by decide)
     (by decide) (by decide)⟩

/-- C7, counterexample.  On the event-based variant a signed width-4
signal written with 8 reads back −8, not `8 & 15 = 8`: `read()` returns
the sign-extended view, so `write(v); commit(); read()` does not yield
`v & (2^w − 1)` for every signal. -/
theorem c7_counterexample :
    ESig.setUpdateGet c7sig 8 = -8 ∧ maskLow 8 c7sig.width = 8 := by
  decide

/-- C7, amended.  The committed raw value after `write(v); commit()` is
always `v & (2^w − 1)` (hence fits the width), and `read()` yields that
masked value for unsigned signals but its two's-complement
interpretation for signed ones; the classic variant (which has no sign
flag) always reads back the masked value. -/
theorem ESig.setUpdate_state (s : ESig.Sig) (v : Int) :
    (ESig.update (ESig.set s v).1).1 =
      { s with value := ESig.toUnsigned s.width v, pending := none } := by
  by_cases h : ESig.toUnsigned s.width v = s.value
  · simp [ESig.set, ESig.update, h]
  · simp [ESig.set, ESig.update, h]

theorem c7_amended_theorem :
    ∀ v : Int,
      (∀ s : ESig.Sig,
        ESig.setUpdateRaw s v = maskLow v s.width ∧
        0 ≤ ESig.setUpdateRaw s v ∧ ESig.setUpdateRaw s v < pow2 s.width ∧
        (s.sign = false → ESig.setUpdateGet s v = maskLow v s.width) ∧
        (s.sign = true →
          ESig.setUpdateGet s v = ESig.toSigned s.width (maskLow v s.width))) ∧
      (∀ t : Old.Sig,
        Old.writeCommitRead t v = maskLow v t.width ∧
        0 ≤ Old.writeCommitRead t v ∧ Old.writeCommitRead t v < pow2 t.width) := by
  intro v
  have hpos : ∀ n : Nat, (0 : Int) < pow2 n := fun n => pow_pos (by norm_num) n
  constructor
  · intro s
    have hraw : ESig.setUpdateRaw s v = maskLow v s.width := by
      rw [ESig.setUpdateRaw, ESig.setUpdate_state]; rfl
    refine ⟨hraw, ?_, ?_, ?_, ?_⟩
    · rw [hraw]
      exact Int.emod_nonneg v (ne_of_gt (hpos s.width))
    · rw [hraw]
      exact Int.emod_lt_of_pos v (hpos s.width)
    · intro hs
      rw [ESig.setUpdateGet, ESig.setUpdate_state, ESig.get]
      simp [hs, ESig.toInteger, ESig.toUnsigned, maskLow, pow2,
        Int.emod_emod_of_dvd]
    · intro hs
      rw [ESig.setUpdateGet, ESig.setUpdate_state, ESig.get]
      simp [hs, ESig.toInteger, ESig.toUnsigned]
  · intro t
    refine ⟨rfl, ?_, ?_⟩
    · exact Int.emod_nonneg v (ne_of_gt (hpos t.width))
    · exact Int.emod_lt_of_pos v (hpos t.width)

/-- C7, amended, witness: writing −1 to an unsigned width-4 signal stores
and reads back 15. -/
theorem c7_amended_witness :
    ESig.setUpdateRaw (Pipe.mkSig 4) (-1) = maskLow (-1) 4 ∧
    ESig.setUpdateGet (Pipe.mkSig 4) (-1) = maskLow (-1) 4 ∧
    maskLow (-1) 4 = 15 :=
  ⟨((c7_amended_theorem (-1)).1 (Pipe.mkSig 4)).1,
   ((c7_amended_theorem (-1)).1 (Pipe.mkSig 4)).2.2.2.1 rfl,
   by decide⟩

/-- C9, counterexample.  A process-less write to a child-module wire
(classified `WIRE`, not `EXTERNAL`) raises nothing: the classic
`_record_write` outside a delta cycle returns normally, the event-based
`_handle_signal_write_tracked` ignores the write, and the pipeline write
helper stages the pending with no error. -/
theorem c9_counterexample :
    Old.recordWrite c9ctx 2 false =
      .ok { c9ctx with writeLog := [(2, [none])] } ∧
    Mgr.handleWriteTracked [] none .wireS 2 = .ok [] ∧
    Pipe.c9Write.2 = none ∧
    (Pipe.storeGet Pipe.c9Write.1.store 2).pending = some 3 := by
  decide

/-- C9, amended.  Process-less writes are never rejected on the basis of
external classification: the event-based tracker returns immediately for
every signal when no function is executing, and the classic context
raises its error (a `RuntimeError`) only when a process-less write
happens during a delta cycle — outside one it accepts the write on any
signal. -/
theorem c9_amended_theorem :
    (∀ (ws : Mgr.Writers) (src : EventSource) (sid : Nat),
      Mgr.handleWriteTracked ws none src sid = .ok ws) ∧
    (∀ (ctx : Old.Ctx) (sid : Nat) (isReg : Bool),
      ctx.deltaCycle = false → ctx.currentFunction = none →
      ctx.currentPhase = none →
      Old.logLookup ctx.writeLog sid = [] →
      Old.recordWrite ctx sid isReg =
        .ok { ctx with writeLog := Old.logInsert ctx.writeLog sid [none] }) ∧
    (∀ (ctx : Old.Ctx) (sid : Nat) (isReg : Bool),
      ctx.deltaCycle = true → ctx.currentFunction = none →
      Old.recordWrite ctx sid isReg = .error .writeOutsideProcess) := by
  refine ⟨?_, ?_, ?_⟩
  · intro ws src sid
    rfl
  · intro ctx sid isReg hd hf hp hl
    simp [Old.recordWrite, hd, hf, hp, hl]
  · intro ctx sid isReg hd hf
    simp [Old.recordWrite, hd, hf]

/-- C9, amended, witness at the concrete inputs of the counterexample. -/
theorem c9_amended_witness :
    Mgr.handleWriteTracked [] none .wireS 2 = .ok [] ∧
    Old.recordWrite c9ctx 2 false =
      .ok { c9ctx with writeLog := Old.logInsert c9ctx.writeLog 2 [none] } ∧
    Old.recordWrite { c9ctx with deltaCycle := true } 2 false =
      .error .writeOutsideProcess :=
  ⟨c9_amended_theorem.1 [] .wireS 2,
   c9_amended_theorem.2.1 c9ctx 2 false rfl rfl rfl rfl,
   c9_amended_theorem.2.2 { c9ctx with deltaCycle := true } 2 false rfl rfl⟩

/-- C10.  In the event-based variant a write whose masked value equals
the committed value leaves the pending slot empty (cancelling any value
staged earlier in the same pass), the subsequent `_update` reports the
signal stable, a bit-slice write behaves the same way, and on a concrete
design whose process rewrites the committed value the combinational loop
finishes in a single pass. -/
theorem c10_theorem :
    (∀ (s : ESig.Sig) (v : Int), ESig.toUnsigned s.width v = s.value →
      (ESig.set s v).1.pending = none ∧ (ESig.set s v).2 = false ∧
      ESig.update (ESig.set s v).1 = ((ESig.set s v).1, false)) ∧
    (∀ (s : ESig.Sig) (a b : Nat) (nv : Int),
      ESig.setBitRaw s.value a b nv = s.value →
      (ESig.setBit s a b nv).1.pending = none) ∧
    (Pipe.evaluateAlwaysComb Pipe.c10Design Pipe.c10State).passes = 1 ∧
    (Pipe.evaluateAlwaysComb Pipe.c10Design Pipe.c10State).err = none ∧
    (Pipe.evaluateAlwaysComb Pipe.c10Design Pipe.c10State).st.store =
      Pipe.c10State.store := by
  refine ⟨?_, ?_, by decide, by decide, by decide⟩
  · intro s v h
    simp [ESig.set, h, ESig.update]
  · intro s a b nv h
    simp [ESig.setBit, h]

/-- C10, witness: rewriting the committed value 5 over a staged pending 2
cancels the pending and reports stability. -/
theorem c10_witness :
    (ESig.set { sign := false, width := 4, prevTrigger := 0, prevWrite := 0,
                value := 5, pending := some 2 } 5).1.pending = none ∧
    (ESig.set { sign := false, width := 4, prevTrigger := 0, prevWrite := 0,
                value := 5, pending := some 2 } 5).2 = false ∧
    ESig.update (ESig.set { sign := false, width := 4, prevTrigger := 0,
                            prevWrite := 0, value := 5, pending := some 2 } 5).1 =
      ((ESig.set { sign := false, width := 4, prevTrigger := 0, prevWrite := 0,
                   value := 5, pending := some 2 } 5).1, false) :=
  c10_theorem.1 _ 5 (by decide)

/-- C1, counterexample.  In the live scheduler (`Simulator._half_clock`)
the NBA-side process evaluation does not come after the active region: on
a posedge half clock of the concrete design, the trace starts with the
external commit, then the triggered `always_ff` evaluation (index 1), and
only then the first `always_comb` evaluation (index 2) — the sequential
process runs strictly before the combinational settle it was claimed to
follow. -/
theorem c1_counterexample :
    Pipe.c1Run.2.2 = none ∧
    Pipe.c1Run.2.1.findIdx Pipe.isFFEv = 1 ∧
    Pipe.c1Run.2.1.findIdx Pipe.isCombEv = 2 ∧
    Pipe.c1Run.2.1.length = 13 := by
  decide

/-- C5.  The combinational stabilisation loop is bounded by the
configured `max_comb_loops` (default 30): the pass count never exceeds
the bound, and on the oscillator design (`osc ← ¬osc`, bound 4) a single
`step_clock()` raises `SignalUnstableError` after exactly 4 committed
passes, leaving the signal store in the state of the last completed pass
(the oscillator wire back at 0 after four flips, with no pending). -/
theorem c5_theorem :
    (∀ (d : Pipe.Design) (st : Pipe.SimState) (fuel : Nat),
      (Pipe.combLoopAux d st fuel).passes ≤ fuel) ∧
    (∀ (d : Pipe.Design) (st : Pipe.SimState),
      (Pipe.evaluateAlwaysComb d st).passes ≤ d.maxCombLoops) ∧
    Pipe.defaultMaxCombLoops = 30 ∧
    Pipe.c5Run.2.2 = some .didNotConverge ∧
    Pipe.c5Run.2.1.count Pipe.PEv.commitWires = 4 ∧
    (Pipe.storeGet Pipe.c5Run.1.store 1).value = 0 ∧
    (Pipe.storeGet Pipe.c5Run.1.store 1).pending = none := by
  have hb : ∀ (d : Pipe.Design) (fuel : Nat) (st : Pipe.SimState),
      (Pipe.combLoopAux d st fuel).passes ≤ fuel := by
    intro d fuel
    induction fuel with
    | zero => intro st; simp [Pipe.combLoopAux]
    | succ n ih =>
      intro st
      unfold Pipe.combLoopAux
      simp only []
      split
      · simp
      · split
        · simp only []
          exact Nat.succ_le_succ (ih _)
        · simp
  exact ⟨fun d st fuel => hb d fuel st, fun d st => hb d d.maxCombLoops st,
    rfl, by decide, by decide, by decide, by decide⟩

/-- C5, witness: the pass bound evaluated on the oscillator design at its
configured bound of 4. -/
theorem c5_witness :
    (Pipe.combLoopAux Pipe.c5Design Pipe.c5State 4).passes ≤ 4 :=
  c5_theorem.1 Pipe.c5Design Pipe.c5State 4

/-- C6, counterexample.  The write log is not empty at the step boundary:
after one complete `clock()` of the concrete design (process 10 drove
wire 2 while the enable was high), `_signal_writers` still holds the
entry for wire 2 — the live scheduler never clears it (the classic
variant's `_SimulationContext._clear` has no caller). -/
theorem c6_counterexample :
    Pipe.c6Tick1.2.2 = none ∧
    Pipe.c6Tick1.1.writers = [(2, 10)] := by
  decide

theorem Mgr.wlookup_winsert (ws : Mgr.Writers) (sid pid k : Nat) :
    Mgr.wlookup (Mgr.winsert ws sid pid) k =
      if k = sid then some pid else Mgr.wlookup ws k := by
  induction ws with
  | nil =>
    by_cases h : k = sid
    · simp [Mgr.winsert, Mgr.wlookup, h]
    · have h' : ¬sid = k := fun hh => h hh.symm
      simp [Mgr.winsert, Mgr.wlookup, h, h']
  | cons p ps ih =>
    by_cases h1 : p.1 = sid
    · by_cases h3 : k = sid
      · simp [Mgr.winsert, Mgr.wlookup, h1, h3]
      · have h' : ¬sid = k := fun hh => h3 hh.symm
        simp [Mgr.winsert, Mgr.wlookup, h1, h3, h']
    · by_cases h2 : p.1 = k
      · have h3 : ¬k = sid := by rw [← h2]; exact fun hh => h1 hh
        simp [Mgr.winsert, Mgr.wlookup, h1, h2, h3]
      · simp [Mgr.winsert, Mgr.wlookup, h1, h2, ih]

theorem Mgr.handleWriteTracked_wlookup {ws ws' : Mgr.Writers} {fi : Option Mgr.FuncInfo}
    {src : EventSource} {sid : Nat}
    (h : Mgr.handleWriteTracked ws fi src sid = .ok ws') :
    ∀ k p, Mgr.wlookup ws k = some p → Mgr.wlookup ws' k = some p := by
  intro k p hk
  match fi with
  | none =>
    simp [Mgr.handleWriteTracked] at h
    rw [← h]; exact hk
  | some f =>
    simp only [Mgr.handleWriteTracked] at h
    cases hv : Mgr.validateAccessRules src f.srcType with
    | some e => rw [hv] at h; cases h
    | none =>
      rw [hv] at h
      cases hc : Mgr.ensureNoConflict ws sid f.pid with
      | some e => rw [hc] at h; cases h
      | none =>
        rw [hc] at h
        cases h
        rw [Mgr.wlookup_winsert]
        by_cases hks : k = sid
        · subst hks
          simp only [Mgr.ensureNoConflict, hk] at hc
          by_cases hpp : p = f.pid
          · simp [hpp]
          · simp [hpp] at hc
        · simp [hks, hk]

theorem Pipe.performWrite_wlookup (st : Pipe.SimState) (fi : Option Mgr.FuncInfo)
    (c : Pipe.WriteCmd) :
    ∀ k p, Mgr.wlookup st.writers k = some p →
      Mgr.wlookup (Pipe.performWrite st fi c).1.writers k = some p := by
  intro k p hk
  unfold Pipe.performWrite
  cases h : Mgr.handleWriteTracked st.writers fi c.src c.sid with
  | error e => simp [h]; exact hk
  | ok ws => simp [h]; exact Mgr.handleWriteTracked_wlookup h k p hk

theorem Pipe.runCmds_wlookup (fi : Option Mgr.FuncInfo) :
    ∀ (cs : List Pipe.WriteCmd) (st : Pipe.SimState) k p,
      Mgr.wlookup st.writers k = some p →
      Mgr.wlookup (Pipe.runCmds st fi cs).1.writers k = some p := by
  intro cs
  induction cs with
  | nil =>
    intro st k p hk
    simpa [Pipe.runCmds] using hk
  | cons c cs ih =>
    intro st k p hk
    unfold Pipe.runCmds
    split
    next st' heq =>
      apply ih
      have h2 := Pipe.performWrite_wlookup st fi c k p hk
      rw [heq] at h2
      exact h2
    next st' e heq =>
      have h2 := Pipe.performWrite_wlookup st fi c k p hk
      rw [heq] at h2
      exact h2

theorem Pipe.runCombProcs_wlookup :
    ∀ (ps : List Pipe.CombProc) (st : Pipe.SimState) k p,
      Mgr.wlookup st.writers k = some p →
      Mgr.wlookup (Pipe.runCombProcs st ps).1.writers k = some p := by
  intro ps
  induction ps with
  | nil =>
    intro st k p hk
    simpa [Pipe.runCombProcs] using hk
  | cons q qs ih =>
    intro st k p hk
    unfold Pipe.runCombProcs
    split
    next st' heq =>
      simp only []
      apply ih
      have h2 := Pipe.runCmds_wlookup (some { pid := q.pid, srcType := .alwaysCombS })
        (q.body (Pipe.readFun st)) st k p hk
      rw [heq] at h2
      exact h2
    next st' e heq =>
      have h2 := Pipe.runCmds_wlookup (some { pid := q.pid, srcType := .alwaysCombS })
        (q.body (Pipe.readFun st)) st k p hk
      rw [heq] at h2
      exact h2

theorem Pipe.runFFProcs_wlookup :
    ∀ (fs : List Pipe.FFProc) (st : Pipe.SimState) k p,
      Mgr.wlookup st.writers k = some p →
      Mgr.wlookup (Pipe.runFFProcs st fs).1.writers k = some p := by
  intro fs
  induction fs with
  | nil =>
    intro st k p hk
    simpa [Pipe.runFFProcs] using hk
  | cons q qs ih =>
    intro st k p hk
    unfold Pipe.runFFProcs
    split
    next st' heq =>
      simp only []
      apply ih
      have h2 := Pipe.runCmds_wlookup (some { pid := q.pid, srcType := q.srcType })
        (q.body (Pipe.readFun st)) st k p hk
      rw [heq] at h2
      exact h2
    next st' e heq =>
      have h2 := Pipe.runCmds_wlookup (some { pid := q.pid, srcType := q.srcType })
        (q.body (Pipe.readFun st)) st k p hk
      rw [heq] at h2
      exact h2

theorem Pipe.combLoopAux_wlookup (d : Pipe.Design) :
    ∀ (fuel : Nat) (st : Pipe.SimState) k p,
      Mgr.wlookup st.writers k = some p →
      Mgr.wlookup (Pipe.combLoopAux d st fuel).st.writers k = some p := by
  intro fuel
  induction fuel with
  | zero =>
    intro st k p hk
    simpa [Pipe.combLoopAux] using hk
  | succ n ih =>
    intro st k p hk
    have h1 := Pipe.runCombProcs_wlookup d.combProcs st k p hk
    unfold Pipe.combLoopAux
    simp only []
    split
    next e heq => exact h1
    next heq =>
      split
      · exact ih _ k p h1
      · exact h1

theorem Pipe.runIteration_wlookup (d : Pipe.Design) (st : Pipe.SimState) :
    ∀ k p, Mgr.wlookup st.writers k = some p →
      Mgr.wlookup (Pipe.runIteration d st).st.writers k = some p := by
  intro k p hk
  unfold Pipe.runIteration
  split
  next e heq => exact hk
  next trig heq =>
    simp only []
    split
    next e heq2 => exact Pipe.runFFProcs_wlookup trig st k p hk
    next heq2 =>
      have h1 := Pipe.runFFProcs_wlookup trig st k p hk
      split
      next e heq3 => exact Pipe.combLoopAux_wlookup d d.maxCombLoops _ k p h1
      next heq3 => exact Pipe.combLoopAux_wlookup d d.maxCombLoops _ k p h1

theorem Pipe.halfClockLoop_wlookup (d : Pipe.Design) :
    ∀ (fuel : Nat) (st : Pipe.SimState) k p,
      Mgr.wlookup st.writers k = some p →
      Mgr.wlookup (Pipe.halfClockLoop d st fuel).1.writers k = some p := by
  intro fuel
  induction fuel with
  | zero =>
    intro st k p hk
    simpa [Pipe.halfClockLoop] using hk
  | succ n ih =>
    intro st k p hk
    have h1 := Pipe.runIteration_wlookup d st k p hk
    unfold Pipe.halfClockLoop
    simp only []
    split
    next e heq => exact h1
    next heq =>
      split
      · exact ih _ k p h1
      · exact h1

theorem Pipe.halfClock_wlookup (d : Pipe.Design) (st : Pipe.SimState) (fuel : Nat) :
    ∀ k p, Mgr.wlookup st.writers k = some p →
      Mgr.wlookup (Pipe.halfClock d st fuel).1.writers k = some p := by
  intro k p hk
  unfold Pipe.halfClock
  exact Pipe.halfClockLoop_wlookup d fuel _ k p hk

theorem Pipe.clockStep_wlookup (d : Pipe.Design) (st : Pipe.SimState)
    (clkSid : Nat) (fuel : Nat) :
    ∀ k p, Mgr.wlookup st.writers k = some p →
      Mgr.wlookup (Pipe.clockStep d st clkSid fuel).1.writers k = some p := by
  intro k p hk
  have h0 : Mgr.wlookup (Pipe.toggleClock st clkSid).writers k = some p :=
    Pipe.performWrite_wlookup st none _ k p hk
  have h1 := Pipe.halfClock_wlookup d (Pipe.toggleClock st clkSid) fuel k p h0
  unfold Pipe.clockStep
  simp only []
  split
  next e heq => exact h1
  next heq =>
    have h2 : Mgr.wlookup (Pipe.toggleClock (Pipe.halfClock d (Pipe.toggleClock st clkSid) fuel).1 clkSid).writers k = some p :=
      Pipe.performWrite_wlookup _ none _ k p h1
    exact Pipe.halfClock_wlookup d _ fuel k p h2

/-- C6, amended.  The live scheduler never clears the write log: every
recorded writer entry survives `_half_clock` and `clock()` unchanged (the
log is only ever extended or re-confirmed), and `_SimulationContext._clear`
of the classic variant has no caller.  Consequently a write recorded in
one tick can conflict with a later tick: in the concrete design, process
10 drives wire 2 in tick 1 and process 11 (the sole driver of tick 2)
raises `SignalWriteConflict` naming 10 and 11. -/
theorem c6_amended_theorem :
    (∀ (d : Pipe.Design) (st : Pipe.SimState) (fuel : Nat) (k p : Nat),
      Mgr.wlookup st.writers k = some p →
      Mgr.wlookup (Pipe.halfClock d st fuel).1.writers k = some p) ∧
    (∀ (d : Pipe.Design) (st : Pipe.SimState) (clkSid fuel : Nat) (k p : Nat),
      Mgr.wlookup st.writers k = some p →
      Mgr.wlookup (Pipe.clockStep d st clkSid fuel).1.writers k = some p) ∧
    Pipe.c6Tick2.2.2 = some (.signalWriteConflict 10 11) :=
  ⟨fun d st fuel k p hk => Pipe.halfClock_wlookup d st fuel k p hk,
   fun d st clkSid fuel k p hk => Pipe.clockStep_wlookup d st clkSid fuel k p hk,
   by decide⟩

/-- C6, amended, witness: the writer recorded in tick 1 of the C6
scenario survives a further half clock. -/
theorem c6_amended_witness :
    Mgr.wlookup
      (Pipe.halfClock Pipe.c6Design Pipe.c6Tick1.1 8).1.writers 2 = some 10 :=
  c6_amended_theorem.1 Pipe.c6Design Pipe.c6Tick1.1 8 2 10 (by decide)

theorem ediv_ediv_of_pos (a : Int) {b c : Int} (hb : 0 < b) (hc : 0 < c) :
    a / b / c = a / (b * c) := by
  have hbc : 0 < b * c := mul_pos hb hc
  have h1 : b * (a / b) + a % b = a := Int.ediv_add_emod a b
  have h2 : c * (a / b / c) + (a / b) % c = a / b := Int.ediv_add_emod (a / b) c
  have hr1 : 0 ≤ a % b := Int.emod_nonneg a (ne_of_gt hb)
  have hr2 : a % b < b := Int.emod_lt_of_pos a hb
  have hs1 : 0 ≤ (a / b) % c := Int.emod_nonneg _ (ne_of_gt hc)
  have hs2 : (a / b) % c < c := Int.emod_lt_of_pos _ hc
  have key : (b * ((a / b) % c) + a % b) + (b * c) * (a / b / c) = a := by
    nlinarith [h1, h2]
  have hub : b * ((a / b) % c) + a % b < b * c := by
    nlinarith [hr2, hs2, hb.le]
  have hlb : 0 ≤ b * ((a / b) % c) + a % b := by positivity
  have := (Int.ediv_emod_unique hbc).mpr ⟨key, hlb, hub⟩
  exact this.1.symm

set_option maxHeartbeats 1000000 in
theorem mergeBits_spec (b v : Int) (w l n : Nat)
    (hw : l + n ≤ w) (hb0 : 0 ≤ b) (hbw : b < pow2 w) :
    0 ≤ maskLow v n * pow2 l + (b - maskLow (shiftR b l) n * pow2 l) ∧
    maskLow v n * pow2 l + (b - maskLow (shiftR b l) n * pow2 l) < pow2 w ∧
    (maskLow v n * pow2 l + (b - maskLow (shiftR b l) n * pow2 l)) % pow2 l
      = b % pow2 l ∧
    shiftR (maskLow v n * pow2 l + (b - maskLow (shiftR b l) n * pow2 l)) l % pow2 n
      = v % pow2 n ∧
    shiftR (maskLow v n * pow2 l + (b - maskLow (shiftR b l) n * pow2 l)) (l + n)
      = shiftR b (l + n) := by
  set D := pow2 l with hDdef
  set N := pow2 n with hNdef
  set K := pow2 (w - (l + n)) with hKdef
  have hD : 0 < D := pow_pos (by norm_num) l
  have hN : 0 < N := pow_pos (by norm_num) n
  have hK : 0 < K := pow_pos (by norm_num) _
  have hDN : pow2 (l + n) = D * N := by
    rw [hDdef, hNdef, pow2, pow2, pow2, pow_add]
  have hWK : pow2 w = D * N * K := by
    rw [hDdef, hNdef, hKdef, pow2, pow2, pow2, pow2, ← pow_add, ← pow_add]
    congr 1
    omega
  clear_value D N K
  have hsl : shiftR b l = b / D := by rw [hDdef]; rfl
  have hdd : b / D / N = b / (D * N) := ediv_ediv_of_pos b hD hN
  set hh := b / D / N with hhdef
  set t := (b / D) % N with htdef
  clear_value hh t
  have hdecomp : b = b % D + D * t + (D * N) * hh := by
    have h1 : D * (b / D) + b % D = b := Int.ediv_add_emod b D
    have h2 : N * (b / D / N) + (b / D) % N = b / D := Int.ediv_add_emod (b / D) N
    rw [htdef, hhdef]
    nlinarith [h1, h2]
  have hq : maskLow v n * D + (b - maskLow (shiftR b l) n * D)
      = v % N * D + b % D + (D * N) * hh := by
    rw [maskLow, maskLow, hsl, ← hNdef, ← htdef]
    nlinarith [hdecomp]
  have hvN0 : 0 ≤ v % N := Int.emod_nonneg v (ne_of_gt hN)
  have hvNN : v % N < N := Int.emod_lt_of_pos v hN
  have hbD0 : 0 ≤ b % D := Int.emod_nonneg b (ne_of_gt hD)
  have hbDD : b % D < D := Int.emod_lt_of_pos b hD
  have hh0 : 0 ≤ hh := by
    rw [hhdef]
    exact Int.ediv_nonneg (Int.ediv_nonneg hb0 hD.le) hN.le
  have hhK : hh < K := by
    rw [hhdef, ediv_ediv_of_pos b hD hN,
      Int.ediv_lt_iff_lt_mul (mul_pos hD hN)]
    nlinarith [hbw, hWK]
  refine ⟨?_, ?_, ?_, ?_, ?_⟩
  · rw [hq]; positivity
  · rw [hq, hWK]
    nlinarith [hvNN, hbDD, hhK, hD.le, hN.le, mul_pos hD hN]
  · rw [hq]
    have hsplit : v % N * D + b % D + D * N * hh
        = b % D + D * (v % N + N * hh) := by ring
    rw [hsplit, Int.add_mul_emod_self_left]
    exact Int.emod_emod_of_dvd b dvd_rfl
  · rw [hq]
    have h3 : shiftR (v % N * D + b % D + D * N * hh) l
        = (v % N * D + b % D + D * N * hh) / D := by rw [hDdef]; rfl
    have h4 : v % N * D + b % D + D * N * hh = b % D + (v % N + N * hh) * D := by
      ring
    rw [h3, h4, Int.add_mul_ediv_right _ _ (ne_of_gt hD),
      Int.ediv_eq_zero_of_lt hbD0 hbDD, zero_add]
    have h5 : v % N + N * hh = v % N + hh * N := by ring
    rw [h5, Int.add_mul_emod_self]
    exact Int.emod_emod_of_dvd v dvd_rfl
  · have h6 : shiftR (v % N * D + b % D + (D * N) * hh) (l + n)
        = (v % N * D + b % D + (D * N) * hh) / (D * N) := by
      simp only [shiftR, hDN]; rfl
    have h7 : shiftR b (l + n) = b / (D * N) := by
      simp only [shiftR, hDN]; rfl
    have hlow0 : (0 : Int) ≤ v % N * D + b % D := by positivity
    have hlowlt : v % N * D + b % D < D * N := by
      have hstep : D * (v % N + 1) ≤ D * N :=
        mul_le_mul_of_nonneg_left (Int.add_one_le_iff.mpr hvNN) hD.le
      nlinarith [hstep, hbDD]
    have h8 : v % N * D + b % D + (D * N) * hh
        = (v % N * D + b % D) + hh * (D * N) := by ring
    rw [hq, h6, h7, ← hdd, h8,
      Int.add_mul_ediv_right _ _ (ne_of_gt (mul_pos hD hN)),
      Int.ediv_eq_zero_of_lt hlow0 hlowlt, zero_add]

theorem Old.writeBits_ok (s : Old.Sig) (l m : Nat) (v : Int)
    (hl : l ≤ m) (hm : m < s.width) :
    Old.writeBits s (m : Int) (l : Int) v =
      .ok (Old.write s
        (maskLow v (m - l + 1) * pow2 l +
          ((match s.pending with | some p => p | none => s.value) -
            maskLow (shiftR (match s.pending with | some p => p | none => s.value) l)
              (m - l + 1) * pow2 l))) := by
  have hnk : Old.normKey (m : Int) (l : Int) = ((m : Int), (l : Int)) := by
    rw [Old.normKey]
    simp [hl, Int.not_lt.mpr (Int.ofNat_le.mpr hl)]
  have hg : ¬((s.width : Int) ≤ ((m : Int), (l : Int)).1 ∨ ((m : Int), (l : Int)).2 < 0) := by
    push_neg
    refine ⟨?_, ?_⟩
    · show (m : Int) < (s.width : Int)
      exact_mod_cast hm
    · show (0 : Int) ≤ (l : Int)
      positivity
  have hn : (((m : Int), (l : Int)).1 - ((m : Int), (l : Int)).2 + 1).toNat = m - l + 1 := by
    simp only []
    omega
  have hln : (((m : Int), (l : Int)).2).toNat = l := by simp
  rw [Old.writeBits, hnk]
  simp only [hg, if_false, hn, hln]

/-- C8, counterexample.  In the event-based variant a bit-slice write
does not merge into the same-tick pending: after `_set(255)` staged
pending 255 on a width-8 signal committed at 0, `_set_bit` of bit 0 with
value 1 computes from the **committed** value 0 and stages pending 1 —
the full-value write is discarded instead of combined (the claim demands
pending 255 with bit 0 forced to 1, i.e. 255). -/
theorem c8_counterexample :
    (ESig.set c8sig 255).1.pending = some 255 ∧
    (ESig.setBit (ESig.set c8sig 255).1 0 0 1).1.pending = some 1 := by
  decide

/-- C8, amended.  The classic `_write_bits` behaves as claimed: with a
pending staged in the same tick it merges the slice-masked value into the
pending (all bits below `lsb` and above `msb` preserved, the slice
reading back `v` masked to the slice width), falling back to the
committed value when no pending exists; the staged result fits the
signal width.  The event-based `_set_bit`, by contrast, always merges
into the committed value (see the counterexample). -/
theorem c8_theorem :
    (∀ (s : Old.Sig) (l m : Nat) (v p : Int),
      l ≤ m → m < s.width → s.pending = some p →
      0 ≤ p → p < pow2 s.width →
      ∃ s' q, Old.writeBits s (m : Int) (l : Int) v = .ok s' ∧
        s'.pending = some q ∧ s'.value = s.value ∧
        0 ≤ q ∧ q < pow2 s.width ∧
        q % pow2 l = p % pow2 l ∧
        shiftR q l % pow2 (m - l + 1) = v % pow2 (m - l + 1) ∧
        shiftR q (m + 1) = shiftR p (m + 1)) ∧
    (∀ (s : Old.Sig) (l m : Nat) (v : Int),
      l ≤ m → m < s.width → s.pending = none →
      0 ≤ s.value → s.value < pow2 s.width →
      ∃ s' q, Old.writeBits s (m : Int) (l : Int) v = .ok s' ∧
        s'.pending = some q ∧ s'.value = s.value ∧
        0 ≤ q ∧ q < pow2 s.width ∧
        q % pow2 l = s.value % pow2 l ∧
        shiftR q l % pow2 (m - l + 1) = v % pow2 (m - l + 1) ∧
        shiftR q (m + 1) = shiftR s.value (m + 1)) := by
  have main : ∀ (s : Old.Sig) (l m : Nat) (v b : Int),
      l ≤ m → m < s.width →
      (match s.pending with | some p => p | none => s.value) = b →
      0 ≤ b → b < pow2 s.width →
      ∃ s' q, Old.writeBits s (m : Int) (l : Int) v = .ok s' ∧
        s'.pending = some q ∧ s'.value = s.value ∧
        0 ≤ q ∧ q < pow2 s.width ∧
        q % pow2 l = b % pow2 l ∧
        shiftR q l % pow2 (m - l + 1) = v % pow2 (m - l + 1) ∧
        shiftR q (m + 1) = shiftR b (m + 1) := by
    intro s l m v b hl hm hb hb0 hbw
    have hw : l + (m - l + 1) ≤ s.width := by omega
    have hspec := mergeBits_spec b v s.width l (m - l + 1) hw hb0 hbw
    set q0 := maskLow v (m - l + 1) * pow2 l +
      (b - maskLow (shiftR b l) (m - l + 1) * pow2 l) with hq0
    obtain ⟨hq1, hq2, hq3, hq4, hq5⟩ := hspec
    have hok := Old.writeBits_ok s l m v hl hm
    rw [hb] at hok
    have hmask : maskLow q0 s.width = q0 := Int.emod_eq_of_lt hq1 hq2
    refine ⟨Old.write s q0, q0, hok, ?_, rfl, hq1, hq2, hq3, hq4, ?_⟩
    · rw [Old.write, hmask]
    · have hml : l + (m - l + 1) = m + 1 := by omega
      rw [hml] at hq5
      exact hq5
  constructor
  · intro s l m v p hl hm hp hp0 hpw
    exact main s l m v p hl hm (by rw [hp]) hp0 hpw
  · intro s l m v hl hm hp h0 hw
    exact main s l m v s.value hl hm (by rw [hp]) h0 hw

theorem c8_witness :
    ∃ s' q, Old.writeBits (⟨8, 0, some 171, 0, 0, 0⟩ : Old.Sig)
        (3 : Int) (0 : Int) 15 = .ok s' ∧
      s'.pending = some q ∧
      s'.value = 0 ∧
      0 ≤ q ∧ q < pow2 8 ∧
      q % pow2 0 = (171 : Int) % pow2 0 ∧
      shiftR q 0 % pow2 (3 - 0 + 1) = (15 : Int) % pow2 (3 - 0 + 1) ∧
      shiftR q (3 + 1) = shiftR (171 : Int) (3 + 1) :=
  c8_theorem.1 _ 0 3 15 171 (by decide) (by decide) rfl (by decide) (by decide)

theorem Pipe.storeGet_storeSet (st : Pipe.Store) (k : Nat) (s : ESig.Sig) (j : Nat) :
    Pipe.storeGet (Pipe.storeSet st k s) j =
      if j = k ∧ Pipe.storeHas st k = true then s else Pipe.storeGet st j := by
  induction st with
  | nil => simp [Pipe.storeSet, Pipe.storeGet, Pipe.storeHas]
  | cons p ps ih =>
    by_cases hpk : p.1 = k
    · by_cases hjk : j = k
      · have hpj : p.1 = j := by omega
        simp [Pipe.storeSet, Pipe.storeGet, Pipe.storeHas, hpk, hjk, hpj]
      · have hpj : ¬p.1 = j := by omega
        have hkj : ¬k = j := by omega
        simp [Pipe.storeSet, Pipe.storeGet, Pipe.storeHas, hpk, hjk, hpj, hkj]
    · by_cases hpj : p.1 = j
      · have hjk : ¬(j = k) := by omega
        simp [Pipe.storeSet, Pipe.storeGet, Pipe.storeHas, hpk, hpj, hjk]
      · simp [Pipe.storeSet, Pipe.storeGet, Pipe.storeHas, hpk, hpj, ih]

theorem Pipe.storeHas_storeSet (st : Pipe.Store) (k : Nat) (s : ESig.Sig) (j : Nat) :
    Pipe.storeHas (Pipe.storeSet st k s) j = Pipe.storeHas st j := by
  induction st with
  | nil => simp [Pipe.storeSet]
  | cons p ps ih =>
    by_cases hpk : p.1 = k
    · by_cases hpj : p.1 = j <;>
        simp [Pipe.storeSet, Pipe.storeHas, hpk, hpj, ih]
    · by_cases hpj : p.1 = j
      · have hjk : ¬j = k := by omega
        simp [Pipe.storeSet, Pipe.storeHas, hpk, hpj, hjk, ih]
      · simp [Pipe.storeSet, Pipe.storeHas, hpk, hpj, ih]

theorem Pipe.storeGet_absent (st : Pipe.Store) (j : Nat)
    (h : Pipe.storeHas st j = false) : Pipe.storeGet st j = Pipe.defaultSig := by
  induction st with
  | nil => rfl
  | cons p ps ih =>
    by_cases hpj : p.1 = j
    · simp [Pipe.storeHas, hpj] at h
    · simp [Pipe.storeHas, hpj] at h
      simp [Pipe.storeGet, hpj, ih h]

theorem Pipe.fieldsPreserved_refl (a : Pipe.Store) : Pipe.fieldsPreserved a a :=
  fun _ => ⟨rfl, rfl, rfl⟩

theorem Pipe.fieldsPreserved_trans {a b c : Pipe.Store}
    (h1 : Pipe.fieldsPreserved a b) (h2 : Pipe.fieldsPreserved b c) :
    Pipe.fieldsPreserved a c := by
  intro j
  obtain ⟨x1, x2, x3⟩ := h1 j
  obtain ⟨y1, y2, y3⟩ := h2 j
  exact ⟨x1.trans y1, x2.trans y2, x3.trans y3⟩

theorem Pipe.storeSet_fieldsPreserved (st : Pipe.Store) (k : Nat) (s : ESig.Sig)
    (hv : s.value = (Pipe.storeGet st k).value)
    (hp : s.prevWrite = (Pipe.storeGet st k).prevWrite) :
    Pipe.fieldsPreserved (Pipe.storeSet st k s) st := by
  intro j
  rw [Pipe.storeGet_storeSet, Pipe.storeHas_storeSet]
  by_cases h : j = k ∧ Pipe.storeHas st k = true
  · rw [if_pos h]
    obtain ⟨h1, h2⟩ := h
    subst h1
    exact ⟨hv, hp, rfl⟩
  · rw [if_neg h]
    exact ⟨rfl, rfl, rfl⟩

theorem Pipe.performWrite_store (st : Pipe.SimState) (fi : Option Mgr.FuncInfo)
    (c : Pipe.WriteCmd) :
    (Pipe.performWrite st fi c).1.store =
      Pipe.storeSet st.store c.sid
        (ESig.set (Pipe.storeGet st.store c.sid) c.value).1 := by
  unfold Pipe.performWrite
  cases h : Mgr.handleWriteTracked st.writers fi c.src c.sid <;> simp [h]

theorem Pipe.performWrite_fields (st : Pipe.SimState) (fi : Option Mgr.FuncInfo)
    (c : Pipe.WriteCmd) :
    Pipe.fieldsPreserved (Pipe.performWrite st fi c).1.store st.store := by
  rw [Pipe.performWrite_store]
  exact Pipe.storeSet_fieldsPreserved _ _ _ rfl rfl

theorem Pipe.runCmds_fields (fi : Option Mgr.FuncInfo) :
    ∀ (cs : List Pipe.WriteCmd) (st : Pipe.SimState),
      Pipe.fieldsPreserved (Pipe.runCmds st fi cs).1.store st.store := by
  intro cs
  induction cs with
  | nil => intro st; exact Pipe.fieldsPreserved_refl _
  | cons c cs ih =>
    intro st
    unfold Pipe.runCmds
    split
    next st' heq =>
      have h1 := Pipe.performWrite_fields st fi c
      rw [heq] at h1
      exact Pipe.fieldsPreserved_trans (ih st') h1
    next st' e heq =>
      have h1 := Pipe.performWrite_fields st fi c
      rw [heq] at h1
      exact h1

theorem Pipe.runCombProcs_fields :
    ∀ (ps : List Pipe.CombProc) (st : Pipe.SimState),
      Pipe.fieldsPreserved (Pipe.runCombProcs st ps).1.store st.store := by
  intro ps
  induction ps with
  | nil => intro st; exact Pipe.fieldsPreserved_refl _
  | cons q qs ih =>
    intro st
    unfold Pipe.runCombProcs
    split
    next st' heq =>
      have h1 := Pipe.runCmds_fields (some { pid := q.pid, srcType := .alwaysCombS })
        (q.body (Pipe.readFun st)) st
      rw [heq] at h1
      exact Pipe.fieldsPreserved_trans (ih st') h1
    next st' e heq =>
      have h1 := Pipe.runCmds_fields (some { pid := q.pid, srcType := .alwaysCombS })
        (q.body (Pipe.readFun st)) st
      rw [heq] at h1
      exact h1

theorem Pipe.runFFProcs_fields :
    ∀ (fs : List Pipe.FFProc) (st : Pipe.SimState),
      Pipe.fieldsPreserved (Pipe.runFFProcs st fs).1.store st.store := by
  intro fs
  induction fs with
  | nil => intro st; exact Pipe.fieldsPreserved_refl _
  | cons q qs ih =>
    intro st
    unfold Pipe.runFFProcs
    split
    next st' heq =>
      have h1 := Pipe.runCmds_fields (some { pid := q.pid, srcType := q.srcType })
        (q.body (Pipe.readFun st)) st
      rw [heq] at h1
      exact Pipe.fieldsPreserved_trans (ih st') h1
    next st' e heq =>
      have h1 := Pipe.runCmds_fields (some { pid := q.pid, srcType := q.srcType })
        (q.body (Pipe.readFun st)) st
      rw [heq] at h1
      exact h1

theorem ESig.update_prevWrite (s : ESig.Sig) :
    (ESig.update s).1.prevWrite = s.prevWrite := by
  unfold ESig.update
  cases s.pending <;> rfl

theorem Pipe.entryUpdate_prevWriteHas (st : Pipe.Store) (e : Pipe.Entry) (j : Nat) :
    ((Pipe.storeGet (Pipe.entryUpdate st e).1 j).prevWrite
      = (Pipe.storeGet st j).prevWrite) ∧
    Pipe.storeHas (Pipe.entryUpdate st e).1 j = Pipe.storeHas st j := by
  unfold Pipe.entryUpdate
  split
  · exact ⟨rfl, rfl⟩
  · rw [Pipe.storeGet_storeSet, Pipe.storeHas_storeSet]
    by_cases h : j = e.sid ∧ Pipe.storeHas st e.sid = true
    · rw [if_pos h]
      obtain ⟨h1, h2⟩ := h
      subst h1
      exact ⟨ESig.update_prevWrite _, rfl⟩
    · rw [if_neg h]
      exact ⟨rfl, rfl⟩

theorem Pipe.updateEntries_prevWriteHas (ks : List Pipe.Kind) :
    ∀ (es : List Pipe.Entry) (acc : Pipe.Store × Bool) (j : Nat),
      ((Pipe.storeGet (Pipe.updateEntries ks es acc).1 j).prevWrite
        = (Pipe.storeGet acc.1 j).prevWrite) ∧
      Pipe.storeHas (Pipe.updateEntries ks es acc).1 j = Pipe.storeHas acc.1 j := by
  intro es
  induction es with
  | nil => intro acc j; exact ⟨rfl, rfl⟩
  | cons e es ih =>
    intro acc j
    unfold Pipe.updateEntries
    split
    · obtain ⟨i1, i2⟩ := ih ((Pipe.entryUpdate acc.1 e).1, acc.2 || (Pipe.entryUpdate acc.1 e).2) j
      obtain ⟨u1, u2⟩ := Pipe.entryUpdate_prevWriteHas acc.1 e j
      exact ⟨i1.trans u1, i2.trans u2⟩
    · exact ih acc j

theorem Pipe.entryUpdate_value_shield (st : Pipe.Store) (e : Pipe.Entry) (j : Nat)
    (h : ¬e.sid = j ∨ e.kind = Pipe.Kind.inputK) :
    (Pipe.storeGet (Pipe.entryUpdate st e).1 j).value = (Pipe.storeGet st j).value := by
  unfold Pipe.entryUpdate
  split
  · rfl
  next hk =>
    rw [Pipe.storeGet_storeSet]
    by_cases hj : j = e.sid ∧ Pipe.storeHas st e.sid = true
    · rcases h with h | h
      · exact absurd hj.1.symm h
      · exact absurd h hk
    · rw [if_neg hj]

theorem Pipe.updateEntries_value_shield (ks : List Pipe.Kind) :
    ∀ (es : List Pipe.Entry) (acc : Pipe.Store × Bool) (j : Nat),
      Pipe.shielded ks es j →
      (Pipe.storeGet (Pipe.updateEntries ks es acc).1 j).value
        = (Pipe.storeGet acc.1 j).value := by
  intro es
  induction es with
  | nil => intro acc j _; rfl
  | cons e es ih =>
    intro acc j hsh
    have hsh' : Pipe.shielded ks es j := fun x hx => hsh x (List.mem_cons_of_mem e hx)
    unfold Pipe.updateEntries
    split
    next hin =>
      have he : ¬e.sid = j ∨ e.kind = Pipe.Kind.inputK := by
        by_cases hes : e.sid = j
        · rcases hsh e (List.mem_cons_self e es) hes with h | h
          · exact absurd (by simpa using hin) h
          · exact Or.inr h
        · exact Or.inl hes
      rw [ih _ j hsh', Pipe.entryUpdate_value_shield acc.1 e j he]
    · exact ih acc j hsh'

theorem Pipe.storeWriteEntries_valueHas :
    ∀ (es : List Pipe.Entry) (st : Pipe.Store) (j : Nat),
      ((Pipe.storeGet (Pipe.storeWriteEntries es st) j).value
        = (Pipe.storeGet st j).value) ∧
      Pipe.storeHas (Pipe.storeWriteEntries es st) j = Pipe.storeHas st j := by
  intro es
  induction es with
  | nil => intro st j; exact ⟨rfl, rfl⟩
  | cons e es ih =>
    intro st j
    unfold Pipe.storeWriteEntries
    obtain ⟨i1, i2⟩ := ih (Pipe.storeSet st e.sid (ESig.storeWrite (Pipe.storeGet st e.sid))) j
    rw [i1, i2, Pipe.storeGet_storeSet, Pipe.storeHas_storeSet]
    by_cases h : j = e.sid ∧ Pipe.storeHas st e.sid = true
    · rw [if_pos h]
      obtain ⟨h1, _⟩ := h
      subst h1
      exact ⟨rfl, rfl⟩
    · rw [if_neg h]
      exact ⟨rfl, rfl⟩

theorem Pipe.storeWriteEntries_untouched :
    ∀ (es : List Pipe.Entry) (st : Pipe.Store) (j : Nat),
      (∀ e ∈ es, e.sid ≠ j) →
      Pipe.storeGet (Pipe.storeWriteEntries es st) j = Pipe.storeGet st j := by
  intro es
  induction es with
  | nil => intro st j _; rfl
  | cons e es ih =>
    intro st j hne
    unfold Pipe.storeWriteEntries
    rw [ih _ j (fun x hx => hne x (List.mem_cons_of_mem e hx)),
      Pipe.storeGet_storeSet]
    have : ¬(j = e.sid ∧ Pipe.storeHas st e.sid = true) := by
      intro hc
      exact hne e (List.mem_cons_self e es) hc.1.symm
    rw [if_neg this]

theorem Pipe.storeWriteEntries_snap :
    ∀ (es : List Pipe.Entry) (st : Pipe.Store) (j : Nat),
      (∃ e ∈ es, e.sid = j) →
      (Pipe.storeGet (Pipe.storeWriteEntries es st) j).prevWrite
        = (Pipe.storeGet (Pipe.storeWriteEntries es st) j).value := by
  intro es
  induction es with
  | nil =>
    intro st j h
    obtain ⟨e, he, _⟩ := h
    cases he
  | cons e es ih =>
    intro st j hex
    by_cases hes : ∃ x ∈ es, x.sid = j
    · unfold Pipe.storeWriteEntries
      exact ih _ j hes
    · have hej : e.sid = j := by
        obtain ⟨x, hx, hxj⟩ := hex
        rcases List.mem_cons.mp hx with h | h
        · rw [h] at hxj; exact hxj
        · exact absurd ⟨x, h, hxj⟩ hes
      have hne : ∀ x ∈ es, x.sid ≠ j := by
        intro x hx
        by_cases hc : x.sid = j
        · exact absurd ⟨x, hx, hc⟩ hes
        · exact hc
      unfold Pipe.storeWriteEntries
      rw [Pipe.storeWriteEntries_untouched es _ j hne, Pipe.storeGet_storeSet]
      by_cases hh : Pipe.storeHas st e.sid = true
      · rw [if_pos ⟨hej.symm, hh⟩]
        rfl
      · have : ¬(j = e.sid ∧ Pipe.storeHas st e.sid = true) := fun hc => hh hc.2
        rw [if_neg this]
        have habs : Pipe.storeHas st j = false := by
          rw [← hej]
          exact Bool.not_eq_true _ ▸ (by simpa using hh)
        rw [Pipe.storeGet_absent st j habs]
        rfl

theorem Pipe.isWriteAny_false (d : Pipe.Design) (st : Pipe.Store)
    (h : Pipe.isWriteAny d st = false) :
    ∀ e ∈ d.entries, (Pipe.storeGet st e.sid).value = (Pipe.storeGet st e.sid).prevWrite := by
  intro e he
  unfold Pipe.isWriteAny at h
  rw [List.any_eq_false] at h
  have := h e he
  simpa [ESig.isWrite] using this

theorem Pipe.combLoopAux_regs (d : Pipe.Design) :
    ∀ (fuel : Nat) (st : Pipe.SimState) (j : Nat),
      Pipe.shielded Pipe.wireKinds d.entries j →
      ((Pipe.storeGet (Pipe.combLoopAux d st fuel).st.store j).value
        = (Pipe.storeGet st.store j).value) ∧
      ((Pipe.storeGet (Pipe.combLoopAux d st fuel).st.store j).prevWrite
        = (Pipe.storeGet st.store j).prevWrite) ∧
      (Pipe.storeHas (Pipe.combLoopAux d st fuel).st.store j
        = Pipe.storeHas st.store j) := by
  intro fuel
  induction fuel with
  | zero => intro st j _; exact ⟨rfl, rfl, rfl⟩
  | succ n ih =>
    intro st j hsh
    obtain ⟨p1, p2, p3⟩ := Pipe.runCombProcs_fields d.combProcs st j
    have hv := Pipe.updateEntries_value_shield Pipe.wireKinds d.entries
      ((Pipe.runCombProcs st d.combProcs).1.store, false) j hsh
    obtain ⟨hw1, hw2⟩ := Pipe.updateEntries_prevWriteHas Pipe.wireKinds d.entries
      ((Pipe.runCombProcs st d.combProcs).1.store, false) j
    unfold Pipe.combLoopAux
    simp only []
    split
    next e heq => exact ⟨p1, p2, p3⟩
    next heq =>
      split
      · obtain ⟨i1, i2, i3⟩ := ih _ j hsh
        refine ⟨?_, ?_, ?_⟩
        · rw [i1]; exact hv.trans p1
        · rw [i2]; exact hw1.trans p2
        · rw [i3]; exact hw2.trans p3
      · exact ⟨hv.trans p1, hw1.trans p2, hw2.trans p3⟩

theorem Pipe.runCombProcs_trace :
    ∀ (ps : List Pipe.CombProc) (st : Pipe.SimState),
      ∀ e ∈ (Pipe.runCombProcs st ps).2.1, Pipe.combShapeEv e = true := by
  intro ps
  induction ps with
  | nil => intro st e he; cases he
  | cons q qs ih =>
    intro st e he
    unfold Pipe.runCombProcs at he
    revert he
    split
    next st' heq =>
      intro he
      rcases List.mem_cons.mp he with h | h
      · rw [h]; rfl
      · exact ih _ e h
    next st' er heq =>
      intro he
      rcases List.mem_cons.mp he with h | h
      · rw [h]; rfl
      · cases h

theorem Pipe.runFFProcs_trace :
    ∀ (fs : List Pipe.FFProc) (st : Pipe.SimState),
      ∀ e ∈ (Pipe.runFFProcs st fs).2.1, Pipe.isFFEv e = true := by
  intro fs
  induction fs with
  | nil => intro st e he; cases he
  | cons q qs ih =>
    intro st e he
    unfold Pipe.runFFProcs at he
    revert he
    split
    next st' heq =>
      intro he
      rcases List.mem_cons.mp he with h | h
      · rw [h]; rfl
      · exact ih _ e h
    next st' er heq =>
      intro he
      rcases List.mem_cons.mp he with h | h
      · rw [h]; rfl
      · cases h

theorem Pipe.combLoopAux_trace (d : Pipe.Design) :
    ∀ (fuel : Nat) (st : Pipe.SimState),
      ∀ e ∈ (Pipe.combLoopAux d st fuel).trace, Pipe.combShapeEv e = true := by
  intro fuel
  induction fuel with
  | zero => intro st e he; cases he
  | succ n ih =>
    intro st e he
    unfold Pipe.combLoopAux at he
    revert he
    simp only []
    split
    next er heq =>
      intro he
      exact Pipe.runCombProcs_trace d.combProcs st e he
    next heq =>
      split
      · intro he
        simp only [List.mem_append] at he
        rcases he with (he | he) | he
        · exact Pipe.runCombProcs_trace d.combProcs st e he
        · rcases List.mem_singleton.mp he with h
          rw [h]; rfl
        · exact ih _ e he
      · intro he
        rcases List.mem_append.mp he with h | h
        · exact Pipe.runCombProcs_trace d.combProcs st e h
        · rcases List.mem_singleton.mp h with h2
          rw [h2]; rfl

theorem Pipe.combLoopAux_commit_or_err (d : Pipe.Design) :
    ∀ (fuel : Nat) (st : Pipe.SimState),
      Pipe.PEv.commitWires ∈ (Pipe.combLoopAux d st fuel).trace ∨
        (Pipe.combLoopAux d st fuel).err ≠ none := by
  intro fuel
  cases fuel with
  | zero => intro st; exact Or.inr (by simp [Pipe.combLoopAux])
  | succ n =>
    intro st
    unfold Pipe.combLoopAux
    simp only []
    split
    next er heq => exact Or.inr (by simp)
    next heq =>
      split
      · exact Or.inl (by simp)
      · exact Or.inl (by simp)

theorem Pipe.runIteration_commit_or_err (d : Pipe.Design) (st : Pipe.SimState) :
    Pipe.PEv.commitWires ∈ (Pipe.runIteration d st).trace ∨
      (Pipe.runIteration d st).err ≠ none := by
  unfold Pipe.runIteration
  split
  next e heq => exact Or.inr (by simp)
  next trig heq =>
    simp only []
    split
    next e heq2 => exact Or.inr (by simp)
    next heq2 =>
      split
      next e heq3 => exact Or.inr (by simp)
      next heq3 =>
        rcases Pipe.combLoopAux_commit_or_err d d.maxCombLoops (Pipe.runFFProcs st trig).1 with h | h
        · refine Or.inl ?_
          simp only [List.mem_append]
          exact Or.inl (Or.inr (by simpa [Pipe.evaluateAlwaysComb] using h))
        · exact absurd heq3 (by simpa [Pipe.evaluateAlwaysComb] using h)

theorem Pipe.halfClockLoop_commit_or_err (d : Pipe.Design) (st : Pipe.SimState)
    (fuel : Nat) :
    Pipe.PEv.commitWires ∈ (Pipe.halfClockLoop d st (fuel + 1)).2.1 ∨
      (Pipe.halfClockLoop d st (fuel + 1)).2.2 ≠ none := by
  unfold Pipe.halfClockLoop
  simp only []
  split
  next e heq =>
    rcases Pipe.runIteration_commit_or_err d st with h | h
    · exact Or.inl h
    · exact Or.inr (by simp)
  next heq =>
    split
    · rcases Pipe.runIteration_commit_or_err d st with h | h
      · exact Or.inl (by simp [h])
      · exact absurd heq h
    · rcases Pipe.runIteration_commit_or_err d st with h | h
      · exact Or.inl h
      · exact absurd heq h

theorem Pipe.regExclusive_shielded (d : Pipe.Design) (sid : Nat)
    (h : Pipe.regExclusive d sid) :
    Pipe.shielded Pipe.wireKinds d.entries sid := by
  intro e he hes
  rcases h.2 e he hes with hk | hk
  · left
    rw [hk]
    decide
  · right
    exact hk

theorem Pipe.runIteration_spec (d : Pipe.Design) (st : Pipe.SimState) :
    ((Pipe.runIteration d st).err = none →
      ∃ ffEvts combEvts, (Pipe.runIteration d st).trace
          = ffEvts ++ combEvts ++ [Pipe.PEv.commitRegs] ∧
        (∀ e ∈ ffEvts, Pipe.isFFEv e = true) ∧
        (∀ e ∈ combEvts, Pipe.combShapeEv e = true)) ∧
    ((Pipe.runIteration d st).err = none → Pipe.stInv d st →
      (Pipe.runIteration d st).again = false →
      ∀ sid, Pipe.regExclusive d sid →
        (Pipe.storeGet (Pipe.runIteration d st).st.store sid).value
          = (Pipe.storeGet st.store sid).value) ∧
    ((Pipe.runIteration d st).err = none →
      Pipe.stInv d (Pipe.runIteration d st).st) := by
  cases h1 : Pipe.extractTriggered st d.ffProcs with
  | error e =>
    refine ⟨?_, ?_, ?_⟩ <;> intro h <;> simp [Pipe.runIteration, h1] at h
  | ok trig =>
    cases h2 : (Pipe.runFFProcs st trig).2.2 with
    | some e =>
      refine ⟨?_, ?_, ?_⟩ <;> intro h <;> simp [Pipe.runIteration, h1, h2] at h
    | none =>
      cases h3 : (Pipe.evaluateAlwaysComb d (Pipe.runFFProcs st trig).1).err with
      | some e =>
        refine ⟨?_, ?_, ?_⟩ <;> intro h <;> simp [Pipe.runIteration, h1, h2, h3] at h
      | none =>
        refine ⟨?_, ?_, ?_⟩
        · intro _
          simp only [Pipe.runIteration, h1, h2, h3]
          refine ⟨(Pipe.runFFProcs st trig).2.1,
            (Pipe.evaluateAlwaysComb d (Pipe.runFFProcs st trig).1).trace, rfl,
            Pipe.runFFProcs_trace trig st, ?_⟩
          intro e he
          exact Pipe.combLoopAux_trace d d.maxCombLoops _ e he
        · intro _ hinv hagain sid hreg
          simp only [Pipe.runIteration, h1, h2, h3] at hagain ⊢
          simp only [Pipe.updateOfKinds, Pipe.storeWriteAll] at hagain ⊢
          have hsh := Pipe.regExclusive_shielded d sid hreg
          obtain ⟨eReg, heReg, heSid, _⟩ := hreg.1
          obtain ⟨f1, f2, _⟩ := Pipe.runFFProcs_fields trig st sid
          obtain ⟨c1, c2, _⟩ :=
            Pipe.combLoopAux_regs d d.maxCombLoops (Pipe.runFFProcs st trig).1 sid hsh
          obtain ⟨r1, r2⟩ := Pipe.updateEntries_prevWriteHas [Pipe.Kind.regK] d.entries
            ((Pipe.evaluateAlwaysComb d (Pipe.runFFProcs st trig).1).st.store, false) sid
          have hany := Pipe.isWriteAny_false d _ hagain eReg heReg
          rw [heSid] at hany
          obtain ⟨w1, _⟩ := Pipe.storeWriteEntries_valueHas d.entries
            (Pipe.updateEntries [Pipe.Kind.regK] d.entries
              ((Pipe.evaluateAlwaysComb d (Pipe.runFFProcs st trig).1).st.store, false)).1 sid
          rw [w1, hany, r1]
          have : (Pipe.storeGet
              (Pipe.evaluateAlwaysComb d (Pipe.runFFProcs st trig).1).st.store sid).prevWrite
              = (Pipe.storeGet st.store sid).prevWrite := by
            rw [Pipe.evaluateAlwaysComb] at *
            exact c2.trans f2
          rw [this]
          exact hinv sid hreg
        · intro _
          simp only [Pipe.runIteration, h1, h2, h3]
          intro sid hreg
          obtain ⟨eReg, heReg, heSid, _⟩ := hreg.1
          have hsnap := Pipe.storeWriteEntries_snap d.entries
            (Pipe.updateEntries [Pipe.Kind.regK] d.entries
              ((Pipe.evaluateAlwaysComb d (Pipe.runFFProcs st trig).1).st.store, false)).1
            sid ⟨eReg, heReg, heSid⟩
          simp only [Pipe.updateOfKinds, Pipe.storeWriteAll]
          exact hsnap

/-- C1, amended.  In the live scheduler each loop iteration of the half
clock runs the triggered `always_ff` processes first, then the
combinational fixed point, then the register commit: a completed
iteration's trace is (ff evaluations) ++ (comb evaluations and wire
commits) ++ [register commit].  The loop repeats while any signal
changed: starting from the iteration invariant (write snapshot equal to
committed value on register-exclusive ids), an iteration that does not
loop again cannot have changed any register-exclusive id — so a register
commit that changes a register forces a further iteration — the
invariant is re-established at every iteration exit, and the next loop
call performs another combinational sweep unless it raises. -/
theorem c1_amended_theorem :
    (∀ (d : Pipe.Design) (st : Pipe.SimState),
      (Pipe.runIteration d st).err = none →
      ∃ ffEvts combEvts, (Pipe.runIteration d st).trace
          = ffEvts ++ combEvts ++ [Pipe.PEv.commitRegs] ∧
        (∀ e ∈ ffEvts, Pipe.isFFEv e = true) ∧
        (∀ e ∈ combEvts, Pipe.combShapeEv e = true)) ∧
    (∀ (d : Pipe.Design) (st : Pipe.SimState),
      (Pipe.runIteration d st).err = none → Pipe.stInv d st →
      (Pipe.runIteration d st).again = false →
      ∀ sid, Pipe.regExclusive d sid →
        (Pipe.storeGet (Pipe.runIteration d st).st.store sid).value
          = (Pipe.storeGet st.store sid).value) ∧
    (∀ (d : Pipe.Design) (st : Pipe.SimState),
      (Pipe.runIteration d st).err = none →
      Pipe.stInv d (Pipe.runIteration d st).st) ∧
    (∀ (d : Pipe.Design) (st : Pipe.SimState) (fuel : Nat),
      Pipe.PEv.commitWires ∈ (Pipe.halfClockLoop d st (fuel + 1)).2.1 ∨
        (Pipe.halfClockLoop d st (fuel + 1)).2.2 ≠ none) :=
  ⟨fun d st => (Pipe.runIteration_spec d st).1,
   fun d st => (Pipe.runIteration_spec d st).2.1,
   fun d st => (Pipe.runIteration_spec d st).2.2,
   fun d st fuel => Pipe.halfClockLoop_commit_or_err d st fuel⟩

theorem c1_amended_witness :
    (Pipe.storeGet (Pipe.runIteration Pipe.c1Design Pipe.c1State).st.store 1).value
      = (Pipe.storeGet Pipe.c1State.store 1).value :=
  c1_amended_theorem.2.1 Pipe.c1Design Pipe.c1State (by decide)
    (by
      intro sid hreg
      obtain ⟨e, he, hsid, hkind⟩ := hreg.1
      fin_cases he <;> simp_all <;> subst hsid <;> decide)
    (by decide) 1 ⟨⟨⟨1, .regK⟩, by decide, rfl, rfl⟩, by decide⟩
